import Mathlib

/-!
Verification development for a small Scheme interpreter with a logic-programming
layer (files `scheme.py` and `logic.py`).

The logic layer is embedded first: terms, frames (environment chains used as
substitution stores), the destructive unifier, variable labelling, and the
depth-limited backtracking query engine.  The Scheme evaluator (both the naive
recursive one and the trampolined tail-call-optimized one) is embedded after
that, over an explicit store of mutable frames.

Modelling conventions
* Python's mutation of a frame's dict is modelled by state passing: every
  function that mutates a frame returns the updated frame (or store).
* Python's unbounded recursion is modelled with explicit fuel where the source
  recursion is not structural.  Python's recursion limit together with the
  bare `except:` in `logic.lookup` means a lookup that chases a cyclic binding
  chain returns the symbol it is currently at; the fuel model reproduces that
  (fuel exhaustion returns the current term).  Recursions that are uncaught in
  Python (`unify` on cyclic data) are modelled as `Option`, `none` standing
  for the escaping `RecursionError`/`AttributeError`.
* Atoms of the term language are modelled as symbols and integers; boolean and
  string literal atoms of the reader are omitted here since the logic layer's
  claims never touch them (they would sit in the same `scheme_atomp` branch of
  `unify`).
-/

set_option maxHeartbeats 1000000

namespace SchemeModel

/-- Terms of the logic language: reader expressions.  `sym` is a Python string
(symbols), `num` a number, `pair` the `Pair` class of `scheme_reader`, `nilT`
the `nil` singleton.  `Pair.__eq__` is structural, so derived decidable
equality matches the source's `==`. -/
inductive Term where
  | sym (s : String)
  | num (n : Int)
  | pair (first second : Term)
  | nilT
deriving DecidableEq, Repr

/-- `scheme_symbolp`: is the value a string. -/
def scheme_symbolp : Term → Bool
  | .sym _ => true
  | _ => false

/-- `scheme_atomp`: boolean, number, symbol or string (here: symbol or number). -/
def scheme_atomp : Term → Bool
  | .sym _ => true
  | .num _ => true
  | _ => false

/-- `scheme_pairp`. -/
def scheme_pairp : Term → Bool
  | .pair _ _ => true
  | _ => false

/-- `logic.isvar`: a symbol whose name starts with the marker `?`
(`symbol.startswith("?")`, tested on the first character). -/
def isvar : Term → Bool
  | .sym s => match s.data with
    | '?' :: _ => true
    | _ => false
  | _ => false

/-- The bindings dict of a `Frame` (symbol name to term), as an association
list in Python dict insertion order. -/
abbrev Bindings := List (String × Term)

/-- `scheme.Frame` used by the logic layer: a bindings dict and a parent
(`None` at the root, hence the two constructors). -/
inductive Frame where
  | root (bindings : Bindings)
  | child (bindings : Bindings) (parent : Frame)
deriving DecidableEq, Repr

def Frame.bindings : Frame → Bindings
  | .root b => b
  | .child b _ => b

def Frame.parent : Frame → Option Frame
  | .root _ => none
  | .child _ p => some p

/-- Lookup in one dict. -/
def bLookup (s : String) : Bindings → Option Term
  | [] => none
  | (k, v) :: r => if k = s then some v else bLookup s r

/-- Python dict assignment `bindings[sym] = val`: overwrite in place if the key
is present, append otherwise. -/
def bDefine (s : String) (v : Term) : Bindings → Bindings
  | [] => [(s, v)]
  | (k, w) :: r => if k = s then (s, v) :: r else (k, w) :: bDefine s v r

/-- `Frame.lookup` without the final `SchemeError` (the logic layer catches
it): search this frame's dict then the parent chain. -/
def Frame.chainLookup (s : String) : Frame → Option Term
  | .root b => bLookup s b
  | .child b p =>
    match bLookup s b with
    | some v => some v
    | none => p.chainLookup s

/-- `Frame.define`: dict assignment in this frame only. -/
def Frame.define (s : String) (v : Term) : Frame → Frame
  | .root b => .root (bDefine s v b)
  | .child b p => .child (bDefine s v b) p

/-- Total number of bindings in the chain (used to size lookup fuel). -/
def frameSize : Frame → Nat
  | .root b => b.length
  | .child b p => b.length + frameSize p

/-- `logic.lookup`: resolve a symbol repeatedly until it is no longer bound;
any failure (unbound symbol, non-symbol key) returns the term itself.  The
fuel models Python's recursion limit caught by the bare `except:`: when it
runs out the current term is returned. -/
def lookupTerm : Nat → Term → Frame → Term
  | 0, t, _ => t
  | fuel + 1, t, env =>
    match t with
    | .sym s =>
      match env.chainLookup s with
      | some v => lookupTerm fuel v env
      | none => .sym s
    | _ => t

/-- `logic.lookup` with fuel one more than the number of bindings in the
chain: enough for every acyclic binding chain, so it agrees with Python
whenever Python's lookup terminates normally. -/
def lookupT (t : Term) (env : Frame) : Term :=
  lookupTerm (frameSize env + 1) t env

/-- `env.define(e, f)` where `e` is the variable produced by `lookup` (always
a symbol on that call site). -/
def defineTerm (t v : Term) (env : Frame) : Frame :=
  match t with
  | .sym s => env.define s v
  | _ => env

/-- `logic.unify`: destructively extend `env` to make `e` and `f` equal.
Returns the success flag and the updated frame; `none` models the uncaught
exceptions (`RecursionError` on divergent recursion, `AttributeError` on
`nil.first` when exactly one side is the empty list). -/
def unify : Nat → Term → Term → Frame → Option (Bool × Frame)
  | 0, _, _, _ => none
  | fuel + 1, e0, f0, env =>
    let e := lookupT e0 env
    let f := lookupT f0 env
    if e = f then some (true, env)
    else if isvar e then some (true, defineTerm e f env)
    else if isvar f then some (true, defineTerm f e env)
    else if scheme_atomp e || scheme_atomp f then some (false, env)
    else
      match e, f with
      | .pair e1 e2, .pair f1 f2 =>
        match unify fuel e1 f1 env with
        | some (true, env1) => unify fuel e2 f2 env1
        | some (false, env1) => some (false, env1)
        | none => none
      | _, _ => none

/-- `logic.label`: rename every logical variable in `expr` with the identifier
`n` (`expr + '_' + str(n)`). -/
def label : Term → Nat → Term
  | .sym s, n => if isvar (.sym s) then .sym (s ++ "_" ++ toString n) else .sym s
  | .pair a b, n => .pair (label a n) (label b n)
  | t, _ => t

/-- The body of `get_vars`'s accumulation loop: append if not yet present. -/
def insVar (vs : List Term) (v : Term) : List Term :=
  if v ∈ vs then vs else vs ++ [v]

/-- `logic.get_vars`: all logical variables of `expr`, first-seen order, no
duplicates. -/
def getVars : Term → List Term
  | .pair a b => (getVars b).foldl insVar (getVars a)
  | t => if isvar t then [t] else []

/-- Python's default recursion limit, the fuel used where the source relies on
bounded-but-unstated recursion depth. -/
def PYFUEL : Nat := 1000

/-- `logic.bind`: fully resolve a term for display, substituting inside
pairs. -/
def bindT : Nat → Term → Frame → Term
  | 0, expr, _ => expr
  | fuel + 1, expr, env =>
    match expr with
    | .sym s =>
      let resolved := lookupT (.sym s) env
      if resolved ≠ .sym s then bindT fuel resolved env else .sym s
    | .pair a b => .pair (bindT fuel a env) (bindT fuel b env)
    | t => t

/-- `logic.DEPTH_LIMIT`. -/
def DEPTH_LIMIT : Nat := 20

mutual

/-- `logic.query`: establish all of `clauses` from `facts`, non-destructively
extending `env`, not nesting rule applications deeper than `DEPTH_LIMIT`.
The generator is modelled as the eagerly collected list of yielded frames,
in yield order; the global `IDENTIFIER` counter is threaded as `ctr`
(`get_unique_id` increments before use).  `none` propagates a crash from
`unify` or from `fact.first` on a malformed fact. -/
def query (facts : List Term) (clauses : Term) (env : Frame) (depth ctr : Nat) :
    Option (List Frame × Nat) :=
  if clauses = Term.nilT then some ([env], ctr)
  else if h : depth ≤ DEPTH_LIMIT then
    goFacts facts facts clauses env depth ctr h
  else some ([], ctr)
termination_by (DEPTH_LIMIT + 1 - depth, 1, 0)

/-- The `for fact in facts` loop inside `query`. -/
def goFacts (facts fs : List Term) (clauses : Term) (env : Frame) (depth ctr : Nat)
    (h : depth ≤ DEPTH_LIMIT) : Option (List Frame × Nat) :=
  match fs with
  | [] => some ([], ctr)
  | fact :: rest =>
    match label fact (ctr + 1), clauses with
    | .pair head hyps, .pair _goal goals =>
      match unify PYFUEL head _goal (Frame.child [] env) with
      | none => none
      | some (false, _) => goFacts facts rest clauses env depth (ctr + 1) h
      | some (true, envH) =>
        match query facts hyps envH (depth + 1) (ctr + 1) with
        | none => none
        | some (envRules, ctr2) =>
          match queryList facts envRules goals (depth + 1) ctr2 with
          | none => none
          | some (results, ctr3) =>
            match goFacts facts rest clauses env depth ctr3 h with
            | none => none
            | some (more, ctr4) => some (results ++ more, ctr4)
    | _, _ => none
termination_by (DEPTH_LIMIT + 1 - depth, 0, fs.length)

/-- The `for env_rule in query(fact.second, ...)` loop inside `query`:
resolve the remaining goals under each frame yielded for the hypotheses. -/
def queryList (facts : List Term) (envs : List Frame) (goals : Term) (depth ctr : Nat) :
    Option (List Frame × Nat) :=
  match envs with
  | [] => some ([], ctr)
  | e :: es =>
    match query facts goals e depth ctr with
    | none => none
    | some (rs, ctr1) =>
      match queryList facts es goals depth ctr1 with
      | none => none
      | some (rs2, ctr2) => some (rs ++ rs2, ctr2)
termination_by (DEPTH_LIMIT + 1 - depth, 2, envs.length)

end

/-- `logic.do_query`: all bindings that satisfy `clauses`, starting from a
fresh root frame at depth 0, each solution rendered as the fully resolved
binding of every variable of the original clauses. -/
def do_query (facts : List Term) (clauses : Term) :
    Option (List (List (Term × Term))) :=
  match query facts clauses (Frame.root []) 0 0 with
  | none => none
  | some (envs, _) =>
    some (envs.map fun env => (getVars clauses).map fun v => (v, bindT PYFUEL v env))

/-- Build a proper list term. -/
def listT : List Term → Term
  | [] => .nilT
  | t :: ts => .pair t (listT ts)

/-!
A fuel-indexed twin of the query engine.  `query` above is total by the
depth-limit argument, but its well-founded recursion does not reduce inside
the kernel; the twin below is structurally recursive on an explicit fuel and
is used only to compute concrete runs, which `queryFuel_sound` transfers to
`query`.  The bodies are textually those of `query`/`goFacts`/`queryList`.
-/

mutual

def queryFuel : Nat → List Term → Term → Frame → Nat → Nat →
    Option (List Frame × Nat)
  | 0, _, _, _, _, _ => none
  | fuel + 1, facts, clauses, env, depth, ctr =>
    if clauses = Term.nilT then some ([env], ctr)
    else if depth ≤ DEPTH_LIMIT then
      goFactsFuel fuel facts facts clauses env depth ctr
    else some ([], ctr)
termination_by structural fuel => fuel

def goFactsFuel : Nat → List Term → List Term → Term → Frame → Nat → Nat →
    Option (List Frame × Nat)
  | 0, _, _, _, _, _, _ => none
  | fuel + 1, facts, fs, clauses, env, depth, ctr =>
    match fs with
    | [] => some ([], ctr)
    | fact :: rest =>
      match label fact (ctr + 1), clauses with
      | .pair head hyps, .pair _goal goals =>
        match unify PYFUEL head _goal (Frame.child [] env) with
        | none => none
        | some (false, _) => goFactsFuel fuel facts rest clauses env depth (ctr + 1)
        | some (true, envH) =>
          match queryFuel fuel facts hyps envH (depth + 1) (ctr + 1) with
          | none => none
          | some (envRules, ctr2) =>
            match queryListFuel fuel facts envRules goals (depth + 1) ctr2 with
            | none => none
            | some (results, ctr3) =>
              match goFactsFuel fuel facts rest clauses env depth ctr3 with
              | none => none
              | some (more, ctr4) => some (results ++ more, ctr4)
      | _, _ => none
termination_by structural fuel => fuel

def queryListFuel : Nat → List Term → List Frame → Term → Nat → Nat →
    Option (List Frame × Nat)
  | 0, _, _, _, _, _ => none
  | fuel + 1, facts, envs, goals, depth, ctr =>
    match envs with
    | [] => some ([], ctr)
    | e :: es =>
      match queryFuel fuel facts goals e depth ctr with
      | none => none
      | some (rs, ctr1) =>
        match queryListFuel fuel facts es goals depth ctr1 with
        | none => none
        | some (rs2, ctr2) => some (rs ++ rs2, ctr2)
termination_by structural fuel => fuel

end

/-- `do_query` computed through the fuel twin. -/
def do_queryFuel (fuel : Nat) (facts : List Term) (clauses : Term) :
    Option (List (List (Term × Term))) :=
  match queryFuel fuel facts clauses (Frame.root []) 0 0 with
  | none => none
  | some (envs, _) =>
    some (envs.map fun env => (getVars clauses).map fun v => (v, bindT PYFUEL v env))

/-- Any run the fuel twin completes is the run of the total query engine. -/
theorem queryFuel_sound : ∀ fuel,
    (∀ facts clauses env depth ctr r,
      queryFuel fuel facts clauses env depth ctr = some r →
      query facts clauses env depth ctr = some r) ∧
    (∀ facts fs clauses env depth ctr r (h : depth ≤ DEPTH_LIMIT),
      goFactsFuel fuel facts fs clauses env depth ctr = some r →
      goFacts facts fs clauses env depth ctr h = some r) ∧
    (∀ facts envs goals depth ctr r,
      queryListFuel fuel facts envs goals depth ctr = some r →
      queryList facts envs goals depth ctr = some r) := by
  intro fuel
  induction fuel with
  | zero =>
    refine ⟨?_, ?_, ?_⟩ <;> intros <;> simp_all [queryFuel, goFactsFuel, queryListFuel]
  | succ n ih =>
    obtain ⟨ih1, ih2, ih3⟩ := ih
    refine ⟨?_, ?_, ?_⟩
    · intro facts clauses env depth ctr r hq
      rw [query]
      simp only [queryFuel] at hq
      by_cases hc : clauses = Term.nilT
      · simpa [hc] using hq
      · simp only [hc, if_false] at hq ⊢
        by_cases hd : depth ≤ DEPTH_LIMIT
        · rw [dif_pos hd]
          exact ih2 facts facts clauses env depth ctr r hd (by simpa [hd] using hq)
        · rw [dif_neg hd]
          simpa [hd] using hq
    · intro facts fs clauses env depth ctr r h hg
      rw [goFacts.eq_def]
      match fs with
      | [] => simp only [goFactsFuel] at hg; simpa using hg
      | fact :: rest =>
        unfold goFactsFuel at hg
        try simp only at hg ⊢
        match hfc : label fact (ctr + 1), clauses with
        | .sym s, cl =>
          try rw [hfc] at hg
          cases cl <;> simp_all
        | .num m, cl =>
          try rw [hfc] at hg
          cases cl <;> simp_all
        | .nilT, cl =>
          try rw [hfc] at hg
          cases cl <;> simp_all
        | .pair head hyps, .sym s =>
          try rw [hfc] at hg
          simp_all
        | .pair head hyps, .num m =>
          try rw [hfc] at hg
          simp_all
        | .pair head hyps, .nilT =>
          try rw [hfc] at hg
          simp_all
        | .pair head hyps, .pair _goal goals =>
          try rw [hfc] at hg
          try rw [hfc]
          try simp only at hg ⊢
          match hu : unify PYFUEL head _goal (Frame.child [] env) with
          | none =>
            try rw [hu] at hg
            simp_all
          | some (false, envX) =>
            try rw [hu] at hg
            try rw [hu]
            try simp only at hg ⊢
            exact ih2 _ _ _ _ _ _ _ h hg
          | some (true, envH) =>
            try rw [hu] at hg
            try rw [hu]
            try simp only at hg ⊢
            match hq1 : queryFuel n facts hyps envH (depth + 1) (ctr + 1) with
            | none =>
              try rw [hq1] at hg
              simp_all
            | some (envRules, ctr2) =>
              try rw [hq1] at hg
              rw [ih1 _ _ _ _ _ _ hq1]
              try simp only at hg ⊢
              match hql : queryListFuel n facts envRules goals (depth + 1) ctr2 with
              | none =>
                try rw [hql] at hg
                simp_all
              | some (results, ctr3) =>
                try rw [hql] at hg
                rw [ih3 _ _ _ _ _ _ hql]
                try simp only at hg ⊢
                match hgr : goFactsFuel n facts rest (Term.pair _goal goals) env depth ctr3 with
                | none =>
                  try rw [hgr] at hg
                  simp_all
                | some (more, ctr4) =>
                  try rw [hgr] at hg
                  rw [ih2 _ _ _ _ _ _ _ h hgr]
                  simpa using hg
    · intro facts envs goals depth ctr r hl
      rw [queryList.eq_def]
      match envs with
      | [] => simp only [queryListFuel] at hl; simpa using hl
      | e :: es =>
        unfold queryListFuel at hl
        try simp only at hl ⊢
        match hq1 : queryFuel n facts goals e depth ctr with
        | none =>
          try rw [hq1] at hl
          simp_all
        | some (rs, ctr1) =>
          try rw [hq1] at hl
          rw [ih1 _ _ _ _ _ _ hq1]
          try simp only at hl ⊢
          match hql : queryListFuel n facts es goals depth ctr1 with
          | none =>
            try rw [hql] at hl
            simp_all
          | some (rs2, ctr2) =>
            try rw [hql] at hl
            rw [ih3 _ _ _ _ _ _ hql]
            simpa using hl

/-- Transfer at the `do_query` level. -/
theorem do_queryFuel_sound (fuel : Nat) (facts : List Term) (clauses : Term)
    (r : List (List (Term × Term))) (h : do_queryFuel fuel facts clauses = some r) :
    do_query facts clauses = some r := by
  unfold do_queryFuel at h
  unfold do_query
  match hq : queryFuel fuel facts clauses (Frame.root []) 0 0 with
  | none => rw [hq] at h; exact absurd h (by simp)
  | some (envs, ctr) =>
    rw [hq] at h
    rw [(queryFuel_sound fuel).1 facts clauses (Frame.root []) 0 0 (envs, ctr) hq]
    exact h

/-! Concrete scenarios for the query engine. -/

/-- The grandparent fact database, stored exactly as `process_input` stores a
`(fact ...)` form: each entry is the head consed onto the hypothesis list. -/
def factsGrandparent : List Term :=
  [ listT [listT [.sym "parent", .sym "abe", .sym "homer"]],
    listT [listT [.sym "parent", .sym "homer", .sym "bart"]],
    listT [listT [.sym "grandparent", .sym "?a", .sym "?c"],
           listT [.sym "parent", .sym "?a", .sym "?b"],
           listT [.sym "parent", .sym "?b", .sym "?c"]] ]

/-- The goal list of `(query (grandparent abe ?who))`. -/
def clausesGrandparent : Term :=
  listT [listT [.sym "grandparent", .sym "abe", .sym "?who"]]

/-- C1: with facts `(parent abe homer)` and `(parent homer bart)` and the rule
`(grandparent ?a ?c) :- (parent ?a ?b) (parent ?b ?c)`, the query
`(grandparent abe ?who)` yields at least one solution — in fact exactly one —
and the first solution binds the variable `?who` to the atom `bart`. -/
theorem grandparent_query_binds_who_to_bart :
    do_query factsGrandparent clausesGrandparent =
      some [[(Term.sym "?who", Term.sym "bart")]] :=
  do_queryFuel_sound 100 _ _ _ (by decide)

/-- The self-referential fact `(fact (loop ?x) (loop ?x))`. -/
def factLoop : Term :=
  listT [listT [.sym "loop", .sym "?x"], listT [.sym "loop", .sym "?x"]]

/-- The goal list of `(query (loop a))`. -/
def clausesLoop : Term := listT [listT [.sym "loop", .sym "a"]]

/-- An environment chain all of whose binding values are symbols.  The loop
scenario only ever binds renamed `?x` variables to the atom `a`, so this
invariant is maintained throughout its search. -/
def AtomicEnv : Frame → Prop
  | .root b => ∀ p ∈ b, ∃ u, p.2 = Term.sym u
  | .child b par => (∀ p ∈ b, ∃ u, p.2 = Term.sym u) ∧ AtomicEnv par

lemma chainLookup_atomic {env : Frame} (hA : AtomicEnv env) {s : String} {v : Term}
    (h : env.chainLookup s = some v) : ∃ u, v = Term.sym u := by
  induction env with
  | root b =>
    simp only [Frame.chainLookup] at h
    induction b with
    | nil => simp [bLookup] at h
    | cons p r ihb =>
      simp only [bLookup] at h
      split at h
      · exact (hA p (by simp)).imp fun u hu => by simp_all
      · exact ihb (fun q hq => hA q (by simp [hq])) h
  | child b par ihp =>
    obtain ⟨hb, hpar⟩ := hA
    simp only [Frame.chainLookup] at h
    split at h
    · next v' hv' =>
      cases h
      induction b with
      | nil => simp [bLookup] at hv'
      | cons p r ihb =>
        simp only [bLookup] at hv'
        split at hv'
        · exact (hb p (by simp)).imp fun u hu => by simp_all
        · exact ihb (fun q hq => hb q (by simp [hq])) hv'
    · exact ihp hpar h

lemma lookupTerm_sym_atomic {env : Frame} (hA : AtomicEnv env) :
    ∀ (fuel : Nat) (s : String), ∃ u, lookupTerm fuel (Term.sym s) env = Term.sym u := by
  intro fuel
  induction fuel with
  | zero => intro s; exact ⟨s, rfl⟩
  | succ n ih =>
    intro s
    simp only [lookupTerm]
    match hc : env.chainLookup s with
    | none => exact ⟨s, rfl⟩
    | some v =>
      obtain ⟨u, rfl⟩ := chainLookup_atomic hA hc
      exact ih u

lemma lookupT_sym_atomic {env : Frame} (hA : AtomicEnv env) (s : String) :
    ∃ u, lookupT (Term.sym s) env = Term.sym u :=
  lookupTerm_sym_atomic hA _ s

lemma lookupT_pair (a b : Term) (env : Frame) :
    lookupT (Term.pair a b) env = Term.pair a b := by
  simp [lookupT, lookupTerm]

lemma lookupT_nil (env : Frame) : lookupT Term.nilT env = Term.nilT := by
  simp [lookupT, lookupTerm]

lemma atomicEnv_bDefine {b : Bindings} (hb : ∀ p ∈ b, ∃ u, p.2 = Term.sym u)
    (s w : String) : ∀ p ∈ bDefine s (Term.sym w) b, ∃ u, p.2 = Term.sym u := by
  induction b with
  | nil =>
    intro p hp
    simp only [bDefine, List.mem_singleton] at hp
    exact ⟨w, by simp [hp]⟩
  | cons q r ih =>
    intro p hp
    simp only [bDefine] at hp
    split at hp
    · rcases List.mem_cons.mp hp with h1 | h2
      · exact ⟨w, by simp [h1]⟩
      · exact hb p (by simp [h2])
    · rcases List.mem_cons.mp hp with h1 | h2
      · exact hb p (by simp [h1])
      · exact ih (fun q' hq' => hb q' (by simp [hq'])) p h2

lemma atomicEnv_define {env : Frame} (hA : AtomicEnv env) (s w : String) :
    AtomicEnv (Frame.define s (Term.sym w) env) := by
  cases env with
  | root b => exact atomicEnv_bDefine hA s w
  | child b par => exact ⟨atomicEnv_bDefine hA.1 s w, hA.2⟩

lemma unify_nil_nil (fuel : Nat) (env : Frame) :
    unify (fuel + 1) Term.nilT Term.nilT env = some (true, env) := by
  simp [unify, lookupT_nil]

lemma unify_sym_refl (fuel : Nat) (env : Frame) (L : String) :
    unify (fuel + 1) (Term.sym L) (Term.sym L) env = some (true, env) := by
  simp [unify]

lemma unify_sym_sym (fuel : Nat) (env : Frame) (hA : AtomicEnv env) (X Y : String) :
    ∃ ok env', unify (fuel + 1) (Term.sym X) (Term.sym Y) env = some (ok, env') ∧
      AtomicEnv env' := by
  obtain ⟨u, hu⟩ := lookupT_sym_atomic hA X
  obtain ⟨w, hw⟩ := lookupT_sym_atomic hA Y
  by_cases hxy : (Term.sym u : Term) = Term.sym w
  · exact ⟨true, env, by simp [unify, hu, hw, hxy], hA⟩
  · by_cases hvu : isvar (Term.sym u) = true
    · refine ⟨true, env.define u (Term.sym w), ?_, atomicEnv_define hA u w⟩
      simp [unify, hu, hw, hxy, hvu, defineTerm]
    · by_cases hvw : isvar (Term.sym w) = true
      · refine ⟨true, env.define w (Term.sym u), ?_, atomicEnv_define hA w u⟩
        simp [unify, hu, hw, hxy, hvu, hvw, defineTerm]
      · exact ⟨false, env, by simp [unify, hu, hw, hxy, hvu, hvw, scheme_atomp], hA⟩

/-- Unifying the renamed loop head `(loop ?x_k)` against a goal `(loop Y)`
over an atomic environment always returns a result (never crashes) and
preserves atomicity. -/
lemma unify_loop_shape (fuel : Nat) (env : Frame) (hA : AtomicEnv env)
    (L X Y : String) :
    ∃ ok env', unify (fuel + 3)
      (Term.pair (Term.sym L) (Term.pair (Term.sym X) Term.nilT))
      (Term.pair (Term.sym L) (Term.pair (Term.sym Y) Term.nilT)) env =
        some (ok, env') ∧ AtomicEnv env' := by
  by_cases hEq : (Term.pair (Term.sym L) (Term.pair (Term.sym X) Term.nilT) : Term) =
      Term.pair (Term.sym L) (Term.pair (Term.sym Y) Term.nilT)
  · exact ⟨true, env, by simp [unify, lookupT_pair, hEq], hA⟩
  · have hEq2 : (Term.pair (Term.sym X) Term.nilT : Term) ≠
        Term.pair (Term.sym Y) Term.nilT := by simpa using hEq
    obtain ⟨u, hu⟩ := lookupT_sym_atomic hA X
    obtain ⟨w, hw⟩ := lookupT_sym_atomic hA Y
    by_cases hxy : (Term.sym u : Term) = Term.sym w
    · refine ⟨true, env, ?_, hA⟩
      simp [unify, lookupT_pair, lookupT_nil, hEq, hEq2, hu, hw, hxy, isvar, scheme_atomp]
    · by_cases hvu : isvar (Term.sym u) = true
      · refine ⟨true, env.define u (Term.sym w), ?_, atomicEnv_define hA u w⟩
        simp only [isvar] at hvu
        simp [unify, lookupT_pair, lookupT_nil, hEq, hEq2, hu, hw, hxy, hvu, defineTerm,
          isvar, scheme_atomp]
      · by_cases hvw : isvar (Term.sym w) = true
        · refine ⟨true, env.define w (Term.sym u), ?_, atomicEnv_define hA w u⟩
          simp only [isvar] at hvu hvw
          simp [unify, lookupT_pair, lookupT_nil, hEq, hEq2, hu, hw, hxy, hvu, hvw,
            defineTerm, isvar, scheme_atomp]
        · refine ⟨false, env, ?_, hA⟩
          simp only [isvar] at hvu hvw
          simp [unify, lookupT_pair, lookupT_nil, hEq, hEq2, hu, hw, hxy, hvu, hvw,
            isvar, scheme_atomp]

lemma goFacts_nil (facts : List Term) (clauses : Term) (env : Frame)
    (depth ctr : Nat) (h : depth ≤ DEPTH_LIMIT) :
    goFacts facts [] clauses env depth ctr h = some ([], ctr) := by
  rw [goFacts.eq_def]

lemma queryList_nil (facts : List Term) (goals : Term) (depth ctr : Nat) :
    queryList facts [] goals depth ctr = some ([], ctr) := by
  rw [queryList.eq_def]

/-- With only the self-referential `loop` fact in the database, any goal list
`((loop X))` produces no solutions once the remaining depth budget `b` runs
out, for every atomic environment. -/
lemma loop_query_empty :
    ∀ b depth ctr env X, depth + b = DEPTH_LIMIT + 1 → AtomicEnv env →
    ∃ ctr', query [factLoop]
      (Term.pair (Term.pair (Term.sym "loop") (Term.pair (Term.sym X) Term.nilT))
        Term.nilT) env depth ctr = some ([], ctr') := by
  intro b
  induction b with
  | zero =>
    intro depth ctr env X hd hA
    rw [query]
    have hnd : ¬ depth ≤ DEPTH_LIMIT := by
      simp only [DEPTH_LIMIT] at hd ⊢; omega
    simp [hnd]
  | succ n ih =>
    intro depth ctr env X hd hA
    have hdep : depth ≤ DEPTH_LIMIT := by
      simp only [DEPTH_LIMIT] at hd ⊢; omega
    rw [query]
    rw [if_neg (by simp), dif_pos hdep]
    rw [goFacts.eq_def]
    have hv : isvar (Term.sym "?x") = true := by decide
    have hnl : isvar (Term.sym "loop") = false := by decide
    have hlab : label factLoop (ctr + 1) =
        Term.pair
          (Term.pair (Term.sym "loop")
            (Term.pair (Term.sym ("?x" ++ "_" ++ toString (ctr + 1))) Term.nilT))
          (Term.pair
            (Term.pair (Term.sym "loop")
              (Term.pair (Term.sym ("?x" ++ "_" ++ toString (ctr + 1))) Term.nilT))
            Term.nilT) := by
      simp [factLoop, listT, label, hv, hnl]
    try simp only
    rw [hlab]
    try simp only
    obtain ⟨ok, env', hu, hA'⟩ :=
      unify_loop_shape 997 (Frame.child [] env) ⟨by simp, hA⟩ "loop"
        ("?x" ++ "_" ++ toString (ctr + 1)) X
    rw [show (PYFUEL : Nat) = 997 + 3 from rfl, hu]
    cases ok with
    | false =>
      try simp only
      exact ⟨ctr + 1, goFacts_nil _ _ _ _ _ hdep⟩
    | true =>
      try simp only
      obtain ⟨c2, hq2⟩ := ih (depth + 1) (ctr + 1) env'
        ("?x" ++ "_" ++ toString (ctr + 1)) (by omega) hA'
      rw [hq2]
      try simp only
      rw [queryList_nil]
      try simp only
      rw [goFacts_nil _ _ _ _ _ hdep]
      exact ⟨c2, by simp⟩

/-- C2: with `DEPTH_LIMIT = 20` and a fact database containing only the
self-referential clause `(loop ?x) :- (loop ?x)`, the query `(loop a)`
terminates (`do_query` is a total function and the run returns a value, not
the crash marker) and produces zero solutions: the search prunes silently at
the depth bound. -/
theorem loop_query_terminates_with_no_solutions :
    do_query [factLoop] clausesLoop = some [] := by
  obtain ⟨ctr', hq⟩ := loop_query_empty (DEPTH_LIMIT + 1) 0 0 (Frame.root []) "a"
    (by omega) (by simp [AtomicEnv])
  unfold do_query
  rw [show clausesLoop =
      Term.pair (Term.pair (Term.sym "loop") (Term.pair (Term.sym "a") Term.nilT))
        Term.nilT from rfl]
  rw [hq]
  simp

/-! ## No occurs-check (C8) and unifier monotonicity (C3) -/

/-- Does `v` occur as a sub-term of `t` (including `t` itself)? -/
def occursIn (v : Term) : Term → Bool
  | .pair a b => (v = Term.pair a b) || occursIn v a || occursIn v b
  | t => v = t

/-- C8: `unify` performs no occurs-check.  For any logical variable `s`
unbound anywhere in the frame chain and any pair term `t` that contains the
variable as a sub-term, `unify` succeeds and binds the variable to `t`
itself. -/
theorem unify_no_occurs_check (fuel : Nat) (s : String) (t1 t2 : Term)
    (env : Frame) (hvar : isvar (Term.sym s) = true)
    (hunb : env.chainLookup s = none)
    (hocc : occursIn (Term.sym s) (Term.pair t1 t2) = true) :
    unify (fuel + 1) (Term.sym s) (Term.pair t1 t2) env =
      some (true, env.define s (Term.pair t1 t2)) := by
  have hl : lookupT (Term.sym s) env = Term.sym s := by
    simp [lookupT, lookupTerm, hunb]
  simp [unify, hl, lookupT_pair, hvar, defineTerm]

/-- Witness for C8 at `?x` against the pair `(?x)`, which contains `?x`. -/
theorem unify_no_occurs_check_witness :
    isvar (Term.sym "?x") = true ∧
    (Frame.root []).chainLookup "?x" = none ∧
    occursIn (Term.sym "?x") (Term.pair (Term.sym "?x") Term.nilT) = true ∧
    unify 1 (Term.sym "?x") (Term.pair (Term.sym "?x") Term.nilT) (Frame.root []) =
      some (true, (Frame.root []).define "?x" (Term.pair (Term.sym "?x") Term.nilT)) :=
  ⟨by decide, by decide, by decide,
    unify_no_occurs_check 0 "?x" (Term.sym "?x") Term.nilT (Frame.root [])
      (by decide) (by decide) (by decide)⟩

/-- C3 counterexample: in a frame whose dict already binds `?x` to itself,
`unify (?x, a)` overwrites that pre-existing binding (Python's lookup hits the
recursion limit, the bare `except:` returns `?x` as if unbound, and the dict
assignment replaces the old value).  So as stated — over every frame — the
claim that `unify` never changes a pre-existing binding is false. -/
theorem unify_changes_preexisting_binding :
    bLookup "?x" (Frame.root [("?x", Term.sym "?x")]).bindings =
      some (Term.sym "?x") ∧
    unify 1 (Term.sym "?x") (Term.sym "a") (Frame.root [("?x", Term.sym "?x")]) =
      some (true, Frame.root [("?x", Term.sym "a")]) ∧
    bLookup "?x" (Frame.root [("?x", Term.sym "a")]).bindings =
      some (Term.sym "a") ∧
    (Term.sym "?x" : Term) ≠ Term.sym "a" := by
  refine ⟨by decide, by decide, by decide, by decide⟩

/-- A term is fully resolved with respect to `env`: it is not a symbol, or it
is a symbol unbound anywhere in the chain. -/
def ResolvedT (env : Frame) (t : Term) : Prop :=
  ∀ s, t = Term.sym s → env.chainLookup s = none

/-- A well-formed substitution store: resolving any term terminates at an
unbound symbol or a non-symbol (no self-bindings, cycles, or chains longer
than the lookup budget).  Every store the query engine builds satisfies
this. -/
def GoodEnv (env : Frame) : Prop :=
  ∀ t, ResolvedT env (lookupT t env)

lemma isvar_sym {t : Term} (h : isvar t = true) : ∃ s, t = Term.sym s := by
  cases t <;> simp_all [isvar]

lemma bLookup_bDefine (s s' : String) (v : Term) (b : Bindings) :
    bLookup s' (bDefine s v b) = if s = s' then some v else bLookup s' b := by
  induction b with
  | nil => by_cases h : s = s' <;> simp [bDefine, bLookup, h]
  | cons q r ih =>
    obtain ⟨k, w⟩ := q
    by_cases hk : k = s
    · subst hk
      by_cases h : k = s' <;> simp [bDefine, bLookup, h]
    · by_cases h : k = s'
      · subst h
        have hss : ¬ s = k := fun hc => hk hc.symm
        simp [bDefine, bLookup, hk, hss]
      · simp [bDefine, bLookup, hk, h, ih]

lemma bDefine_length (s : String) (v : Term) (b : Bindings)
    (h : bLookup s b = none) : (bDefine s v b).length = b.length + 1 := by
  induction b with
  | nil => simp [bDefine]
  | cons q r ih =>
    obtain ⟨k, w⟩ := q
    simp only [bLookup] at h
    by_cases hk : k = s
    · simp [hk] at h
    · simp only [bDefine, hk, if_false, List.length_cons]
      rw [ih (by simpa [hk] using h)]

lemma chainLookup_head_none {env : Frame} {s : String}
    (h : env.chainLookup s = none) : bLookup s env.bindings = none := by
  cases env with
  | root b => simpa [Frame.chainLookup, Frame.bindings] using h
  | child b p =>
    simp only [Frame.chainLookup, Frame.bindings] at h ⊢
    match hb : bLookup s b with
    | none => rfl
    | some v => rw [hb] at h; exact absurd h (by simp)

lemma chainLookup_define (s s' : String) (v : Term) (env : Frame) :
    (Frame.define s v env).chainLookup s' =
      if s = s' then some v else env.chainLookup s' := by
  cases env with
  | root b => simp [Frame.define, Frame.chainLookup, bLookup_bDefine]
  | child b p =>
    by_cases h : s = s'
    · simp [Frame.define, Frame.chainLookup, bLookup_bDefine, h]
    · simp only [Frame.define, Frame.chainLookup, bLookup_bDefine, h, if_neg, if_false]

lemma frameSize_define {env : Frame} {s : String} (v : Term)
    (h : env.chainLookup s = none) :
    frameSize (Frame.define s v env) = frameSize env + 1 := by
  have hh := chainLookup_head_none h
  cases env with
  | root b =>
    simp only [Frame.define, frameSize]
    rw [bDefine_length s v b (by simpa [Frame.bindings] using hh)]
  | child b p =>
    simp only [Frame.define, frameSize]
    rw [bDefine_length s v b (by simpa [Frame.bindings] using hh)]
    omega

lemma parent_define (s : String) (v : Term) (env : Frame) :
    (Frame.define s v env).parent = env.parent := by
  cases env <;> simp [Frame.define, Frame.parent]

lemma bindings_define (s : String) (v : Term) (env : Frame) :
    (Frame.define s v env).bindings = bDefine s v env.bindings := by
  cases env <;> simp [Frame.define, Frame.bindings]

/-- Adding a binding for an unbound symbol `s` to a fully resolved value `f`
keeps every resolution terminating: one extra fuel step absorbs the one extra
link the new binding can add to a chain. -/
lemma resolved_define {env : Frame} {s : String} {f : Term}
    (hs : env.chainLookup s = none) (hf : ResolvedT env f)
    (hfs : f ≠ Term.sym s) :
    ∀ fuel t, ResolvedT env (lookupTerm fuel t env) →
      ResolvedT (Frame.define s f env) (lookupTerm (fuel + 1) t (Frame.define s f env)) := by
  have hstep : ∀ g, ResolvedT (Frame.define s f env) (lookupTerm g f (Frame.define s f env)) := by
    intro g
    match g, f with
    | 0, .sym u =>
      intro s' h'
      cases h'
      have hus : ¬ s = u := fun hc => hfs (by rw [hc])
      rw [chainLookup_define, if_neg hus]
      exact hf u rfl
    | g + 1, .sym u =>
      have hu : env.chainLookup u = none := hf u rfl
      have hus : ¬ s = u := fun hc => hfs (by rw [hc])
      have hred : lookupTerm (g + 1) (Term.sym u) (Frame.define s (Term.sym u) env) =
          Term.sym u := by
        simp [lookupTerm, chainLookup_define, hus, hu]
      rw [hred]
      intro s' h'
      cases h'
      rw [chainLookup_define, if_neg hus]
      exact hu
    | 0, .pair a b => intro s' h'; cases h'
    | g + 1, .pair a b => intro s' h'; simp [lookupTerm] at h'
    | 0, .num m => intro s' h'; cases h'
    | g + 1, .num m => intro s' h'; simp [lookupTerm] at h'
    | 0, .nilT => intro s' h'; cases h'
    | g + 1, .nilT => intro s' h'; simp [lookupTerm] at h'
  intro fuel
  induction fuel with
  | zero =>
    intro t ht
    match t with
    | .pair a b => intro s' h'; simp [lookupTerm] at h'
    | .num m => intro s' h'; simp [lookupTerm] at h'
    | .nilT => intro s' h'; simp [lookupTerm] at h'
    | .sym u =>
      have hu : env.chainLookup u = none := ht u rfl
      by_cases hus : s = u
      · subst hus
        have hred : lookupTerm (0 + 1) (Term.sym s) (Frame.define s f env) =
            lookupTerm 0 f (Frame.define s f env) := by
          simp [lookupTerm, chainLookup_define]
        rw [hred]
        exact hstep 0
      · have hred : lookupTerm (0 + 1) (Term.sym u) (Frame.define s f env) = Term.sym u := by
          simp [lookupTerm, chainLookup_define, hus, hu]
        rw [hred]
        intro s' h'
        cases h'
        rw [chainLookup_define, if_neg hus]
        exact hu
  | succ n ih =>
    intro t ht
    match t with
    | .pair a b => intro s' h'; simp [lookupTerm] at h'
    | .num m => intro s' h'; simp [lookupTerm] at h'
    | .nilT => intro s' h'; simp [lookupTerm] at h'
    | .sym u =>
      by_cases hus : s = u
      · subst hus
        have hred : lookupTerm (n + 1 + 1) (Term.sym s) (Frame.define s f env) =
            lookupTerm (n + 1) f (Frame.define s f env) := by
          simp [lookupTerm, chainLookup_define]
        rw [hred]
        exact hstep (n + 1)
      · match hc : env.chainLookup u with
        | none =>
          have hred : lookupTerm (n + 1 + 1) (Term.sym u) (Frame.define s f env) =
              Term.sym u := by
            simp [lookupTerm, chainLookup_define, hus, hc]
          rw [hred]
          intro s' h'
          cases h'
          rw [chainLookup_define, if_neg hus]
          exact hc
        | some v =>
          have h1 : lookupTerm (n + 1) (Term.sym u) env = lookupTerm n v env := by
            simp [lookupTerm, hc]
          rw [h1] at ht
          have h2 : lookupTerm (n + 1 + 1) (Term.sym u) (Frame.define s f env) =
              lookupTerm (n + 1) v (Frame.define s f env) := by
            simp [lookupTerm, chainLookup_define, hus, hc]
          rw [h2]
          exact ih v ht

/-- `GoodEnv` is preserved by the bindings `unify` adds. -/
lemma goodEnv_define {env : Frame} {s : String} {f : Term}
    (hG : GoodEnv env) (hs : env.chainLookup s = none) (hf : ResolvedT env f)
    (hfs : f ≠ Term.sym s) : GoodEnv (Frame.define s f env) := by
  intro t
  have hsize : frameSize (Frame.define s f env) = frameSize env + 1 :=
    frameSize_define f hs
  unfold lookupT
  rw [hsize]
  exact resolved_define hs hf hfs (frameSize env + 1) t (hG t)
/-- Core induction: over a well-formed store, every call of `unify` leaves the
parent pointer untouched, preserves every binding of the frame it writes to,
and keeps the store well-formed. -/
lemma unify_mono_aux : ∀ fuel e0 f0 env r env',
    GoodEnv env → unify fuel e0 f0 env = some (r, env') →
    env'.parent = env.parent ∧
    (∀ s v, bLookup s env.bindings = some v → bLookup s env'.bindings = some v) ∧
    GoodEnv env' := by
  intro fuel
  induction fuel with
  | zero => intro e0 f0 env r env' hG h; simp [unify] at h
  | succ n ih =>
    intro e0 f0 env r env' hG h
    simp only [unify] at h
    split_ifs at h with h1 h2 h3 h4
    · obtain ⟨rfl, rfl⟩ : r = true ∧ env = env' := by
        constructor <;> [skip; skip] <;> cases h <;> rfl
      exact ⟨rfl, fun s v hv => hv, hG⟩
    · obtain ⟨s, hsym⟩ := isvar_sym h2
      have hres : ResolvedT env (lookupT e0 env) := hG e0
      have hunb : env.chainLookup s = none := hres s hsym
      have hfres : ResolvedT env (lookupT f0 env) := hG f0
      have hne : lookupT f0 env ≠ Term.sym s := by
        intro hc
        exact h1 (by rw [hsym, hc])
      obtain ⟨rfl, rfl⟩ : r = true ∧ defineTerm (lookupT e0 env) (lookupT f0 env) env = env' := by
        constructor <;> cases h <;> rfl
      rw [hsym]
      simp only [defineTerm]
      refine ⟨parent_define _ _ _, ?_, goodEnv_define hG hunb hfres hne⟩
      intro s' v hv
      rw [bindings_define, bLookup_bDefine]
      have hss : ¬ s = s' := by
        intro hc
        subst hc
        rw [chainLookup_head_none hunb] at hv
        exact absurd hv (by simp)
      rw [if_neg hss]
      exact hv
    · obtain ⟨s, hsym⟩ := isvar_sym h3
      have hres : ResolvedT env (lookupT f0 env) := hG f0
      have hunb : env.chainLookup s = none := hres s hsym
      have heres : ResolvedT env (lookupT e0 env) := hG e0
      have hne : lookupT e0 env ≠ Term.sym s := by
        intro hc
        exact h1 (by rw [hsym, hc])
      obtain ⟨rfl, rfl⟩ : r = true ∧ defineTerm (lookupT f0 env) (lookupT e0 env) env = env' := by
        constructor <;> cases h <;> rfl
      rw [hsym]
      simp only [defineTerm]
      refine ⟨parent_define _ _ _, ?_, goodEnv_define hG hunb heres hne⟩
      intro s' v hv
      rw [bindings_define, bLookup_bDefine]
      have hss : ¬ s = s' := by
        intro hc
        subst hc
        rw [chainLookup_head_none hunb] at hv
        exact absurd hv (by simp)
      rw [if_neg hss]
      exact hv
    · obtain ⟨rfl, rfl⟩ : r = false ∧ env = env' := by
        constructor <;> cases h <;> rfl
      exact ⟨rfl, fun s v hv => hv, hG⟩
    · match he : lookupT e0 env, hf : lookupT f0 env with
      | .sym a, x => rw [he] at h; simp at h
      | .num a, x => rw [he] at h; simp at h
      | .nilT, .sym b => rw [he, hf] at h; simp at h
      | .nilT, .num b => rw [he, hf] at h; simp at h
      | .nilT, .nilT => rw [he, hf] at h; simp at h
      | .nilT, .pair b1 b2 => rw [he, hf] at h; simp at h
      | .pair a1 a2, .sym b => rw [he, hf] at h; simp at h
      | .pair a1 a2, .num b => rw [he, hf] at h; simp at h
      | .pair a1 a2, .nilT => rw [he, hf] at h; simp at h
      | .pair a1 a2, .pair b1 b2 =>
        rw [he, hf] at h
        simp only at h
        match hu1 : unify n a1 b1 env with
        | none => rw [hu1] at h; simp at h
        | some (false, env1) =>
          rw [hu1] at h
          simp only at h
          cases h
          exact ih a1 b1 env _ _ hG hu1
        | some (true, env1) =>
          rw [hu1] at h
          simp only at h
          obtain ⟨hp1, hb1, hG1⟩ := ih a1 b1 env true env1 hG hu1
          obtain ⟨hp2, hb2, hG2⟩ := ih a2 b2 env1 r env' hG1 h
          exact ⟨hp2.trans hp1, fun s v hv => hb2 s v (hb1 s v hv), hG2⟩

/-- C3 (amended): over a well-formed substitution store — one in which every
lookup chain terminates at an unbound variable or a non-variable, the
invariant the interpreter maintains — `unify` never removes or changes a
binding already present in the frame it extends, and never touches any frame
of the parent chain (the parent pointer is returned unchanged); it only adds
bindings.  Without the well-formedness condition the statement fails, see
`unify_changes_preexisting_binding`. -/
theorem unify_monotone (fuel : Nat) (e f : Term) (env : Frame) (r : Bool)
    (env' : Frame) (hG : GoodEnv env) (h : unify fuel e f env = some (r, env')) :
    env'.parent = env.parent ∧
    ∀ s v, bLookup s env.bindings = some v → bLookup s env'.bindings = some v :=
  ⟨(unify_mono_aux fuel e f env r env' hG h).1,
   (unify_mono_aux fuel e f env r env' hG h).2.1⟩

/-- Witness for C3 at a store binding `?y ↦ b`: unifying `?x` with `c` keeps
that binding intact. -/
theorem unify_monotone_witness :
    GoodEnv (Frame.root [("?y", Term.sym "b")]) ∧
    unify 2 (Term.sym "?x") (Term.sym "c") (Frame.root [("?y", Term.sym "b")]) =
      some (true, Frame.root [("?y", Term.sym "b"), ("?x", Term.sym "c")]) ∧
    bLookup "?y" (Frame.root [("?y", Term.sym "b"), ("?x", Term.sym "c")]).bindings =
      some (Term.sym "b") := by
  have hG : GoodEnv (Frame.root [("?y", Term.sym "b")]) := by
    intro t
    match t with
    | .pair a b => intro s' h'; simp [lookupT, lookupTerm] at h'
    | .num m => intro s' h'; simp [lookupT, lookupTerm] at h'
    | .nilT => intro s' h'; simp [lookupT, lookupTerm] at h'
    | .sym u =>
      by_cases hu : u = "?y"
      · subst hu
        have : lookupT (Term.sym "?y") (Frame.root [("?y", Term.sym "b")]) =
            Term.sym "b" := by decide
        rw [this]
        intro s' h'
        cases h'
        decide
      · have hnu : ¬ "?y" = u := fun hc => hu hc.symm
        have hnone : Frame.chainLookup u (Frame.root [("?y", Term.sym "b")]) = none := by
          simp [Frame.chainLookup, bLookup, hnu]
        have : lookupT (Term.sym u) (Frame.root [("?y", Term.sym "b")]) = Term.sym u := by
          simp [lookupT, lookupTerm, hnone]
        rw [this]
        intro s' h'
        cases h'
        exact hnone
  have hrun : unify 2 (Term.sym "?x") (Term.sym "c") (Frame.root [("?y", Term.sym "b")]) =
      some (true, Frame.root [("?y", Term.sym "b"), ("?x", Term.sym "c")]) := by decide
  exact ⟨hG, hrun,
    (unify_monotone 2 (Term.sym "?x") (Term.sym "c") (Frame.root [("?y", Term.sym "b")])
        true (Frame.root [("?y", Term.sym "b"), ("?x", Term.sym "c")]) hG hrun).2
      "?y" (Term.sym "b") (by decide)⟩

/-! ## Freshness of variable renaming (C9) -/

/-- All logical-variable occurrences of a term, with duplicates. -/
def varList : Term → List Term
  | .pair a b => varList a ++ varList b
  | t => if isvar t then [t] else []

lemma mem_foldl_insVar {l acc : List Term} {v : Term}
    (h : v ∈ l.foldl insVar acc) : v ∈ acc ∨ v ∈ l := by
  induction l generalizing acc with
  | nil => simp_all
  | cons x xs ih =>
    simp only [List.foldl_cons] at h
    rcases ih h with h1 | h2
    · unfold insVar at h1
      split at h1
      · exact Or.inl h1
      · rcases List.mem_append.mp h1 with h3 | h4
        · exact Or.inl h3
        · simp only [List.mem_singleton] at h4
          exact Or.inr (by simp [h4])
    · exact Or.inr (by simp [h2])

lemma getVars_subset_varList : ∀ t v, v ∈ getVars t → v ∈ varList t := by
  intro t
  induction t with
  | pair a b iha ihb =>
    intro v hv
    simp only [getVars] at hv
    rcases mem_foldl_insVar hv with h1 | h2
    · exact List.mem_append.mpr (Or.inl (iha v h1))
    · exact List.mem_append.mpr (Or.inr (ihb v h2))
  | sym s => intro v hv; simpa [getVars, varList] using hv
  | num m => intro v hv; simpa [getVars, varList] using hv
  | nilT => intro v hv; simpa [getVars, varList] using hv

lemma varList_label (n : Nat) : ∀ t v, v ∈ varList (label t n) →
    ∃ w, v = Term.sym (w ++ "_" ++ toString n) := by
  intro t
  induction t with
  | sym s =>
    intro v hv
    by_cases h : isvar (Term.sym s) = true
    · simp only [label, h, if_true] at hv
      by_cases h2 : isvar (Term.sym (s ++ "_" ++ toString n)) = true
      · simp only [varList, h2, if_true, List.mem_singleton] at hv
        exact ⟨s, hv⟩
      · simp [varList, h2] at hv
    · simp only [label, h, if_false] at hv
      simp [varList, h] at hv
  | pair a b iha ihb =>
    intro v hv
    simp only [label, varList] at hv
    rcases List.mem_append.mp hv with h1 | h2
    · exact iha v h1
    · exact ihb v h2
  | num m => intro v hv; simp [label, varList, isvar] at hv
  | nilT => intro v hv; simp [label, varList, isvar] at hv

lemma append_underscore_inj : ∀ (w1 w2 r1 r2 : List Char),
    '_' ∉ r1 → '_' ∉ r2 → w1 ++ '_' :: r1 = w2 ++ '_' :: r2 → r1 = r2 := by
  intro w1
  induction w1 with
  | nil =>
    intro w2 r1 r2 hr1 hr2 h
    match w2 with
    | [] => simpa using h
    | c :: w2' =>
      simp only [List.nil_append, List.cons_append, List.cons.injEq] at h
      obtain ⟨rfl, h2⟩ := h
      exact absurd (h2 ▸ List.mem_append.mpr (Or.inr (by simp))) hr1
  | cons c w1' ih =>
    intro w2 r1 r2 hr1 hr2 h
    match w2 with
    | [] =>
      simp only [List.cons_append, List.nil_append, List.cons.injEq] at h
      obtain ⟨rfl, h2⟩ := h
      exact absurd (h2 ▸ List.mem_append.mpr (Or.inr (by simp)) : '_' ∈ _) hr2
    | d :: w2' =>
      simp only [List.cons_append, List.cons.injEq] at h
      exact ih w2' r1 r2 hr1 hr2 h.2

/-- The decimal digit list of `n`, by division: the specification that
`Nat.toDigits 10` computes with its fuel. -/
def digitsSpec (n : Nat) : List Char :=
  if n < 10 then [Nat.digitChar n]
  else digitsSpec (n / 10) ++ [Nat.digitChar (n % 10)]
termination_by n
decreasing_by exact Nat.div_lt_self (by omega) (by omega)

lemma toDigitsCore_eq_digitsSpec : ∀ fuel n ds, n < fuel →
    Nat.toDigitsCore 10 fuel n ds = digitsSpec n ++ ds := by
  intro fuel
  induction fuel with
  | zero => intro n ds h; omega
  | succ f ih =>
    intro n ds h
    simp only [Nat.toDigitsCore]
    by_cases h0 : n / 10 = 0
    · have hn : n < 10 := by omega
      rw [digitsSpec]
      simp [h0, hn, Nat.mod_eq_of_lt hn]
    · have hn : ¬ n < 10 := fun hc => h0 (Nat.div_eq_of_lt hc)
      have hpos : 0 < n := by omega
      have hdl : n / 10 < n := Nat.div_lt_self hpos (by norm_num)
      have hlt : n / 10 < f := by omega
      rw [if_neg h0, ih (n / 10) _ hlt]
      conv_rhs => rw [digitsSpec]
      simp [hn, List.append_assoc]

lemma toDigits_eq_digitsSpec (n : Nat) : Nat.toDigits 10 n = digitsSpec n := by
  have h := toDigitsCore_eq_digitsSpec (n + 1) n [] (by omega)
  simpa [Nat.toDigits] using h

lemma digitChar_ne_underscore {k : Nat} (h : k < 10) : Nat.digitChar k ≠ '_' := by
  interval_cases k <;> decide

lemma digitChar_toNat {k : Nat} (h : k < 10) : (Nat.digitChar k).toNat - 48 = k := by
  interval_cases k <;> decide

lemma underscore_not_mem_digitsSpec : ∀ n, '_' ∉ digitsSpec n := by
  intro n
  induction n using Nat.strong_induction_on with
  | _ n ih =>
    by_cases h : n < 10
    · rw [digitsSpec]
      simp only [h, if_true, List.mem_singleton]
      exact fun hc => digitChar_ne_underscore h hc.symm
    · rw [digitsSpec]
      simp only [h, if_false, List.mem_append, List.mem_singleton]
      rintro (hc | hc)
      · exact ih (n / 10) (Nat.div_lt_self (by omega) (by omega)) hc
      · exact digitChar_ne_underscore (Nat.mod_lt n (by omega)) hc.symm

/-- Reading a digit list back as a number. -/
def parseDigits (l : List Char) : Nat :=
  l.foldl (fun a c => 10 * a + (c.toNat - 48)) 0

lemma parse_digitsSpec : ∀ n, parseDigits (digitsSpec n) = n := by
  intro n
  induction n using Nat.strong_induction_on with
  | _ n ih =>
    by_cases h : n < 10
    · rw [digitsSpec]
      simp only [h, if_true, parseDigits, List.foldl_cons, List.foldl_nil]
      rw [Nat.mul_zero, Nat.zero_add, digitChar_toNat h]
    · rw [digitsSpec]
      simp only [h, if_false, parseDigits, List.foldl_append, List.foldl_cons,
        List.foldl_nil]
      have ihq := ih (n / 10) (Nat.div_lt_self (by omega) (by omega))
      rw [parseDigits] at ihq
      rw [ihq, digitChar_toNat (Nat.mod_lt n (by omega))]
      omega

lemma digitsSpec_inj {m n : Nat} (h : digitsSpec m = digitsSpec n) : m = n := by
  have hm := parse_digitsSpec m
  rw [h, parse_digitsSpec n] at hm
  omega

lemma toString_nat_data (n : Nat) : (toString n : String).data = digitsSpec n := by
  show (Nat.repr n).data = digitsSpec n
  rw [Nat.repr, toDigits_eq_digitsSpec]
  rfl

lemma string_data_append (s t : String) : (s ++ t).data = s.data ++ t.data := rfl

/-- C9: labelling the same expression with two different identifiers produces
disjoint sets of renamed variables — no variable of one use equals a variable
of the other. -/
theorem label_vars_disjoint (e : Term) (n1 n2 : Nat) (hne : n1 ≠ n2) (v : Term)
    (h1 : v ∈ getVars (label e n1)) (h2 : v ∈ getVars (label e n2)) : False := by
  obtain ⟨w1, hw1⟩ := varList_label n1 e v (getVars_subset_varList _ v h1)
  obtain ⟨w2, hw2⟩ := varList_label n2 e v (getVars_subset_varList _ v h2)
  rw [hw1] at hw2
  have hdata : (w1 ++ "_" ++ toString n1).data = (w2 ++ "_" ++ toString n2).data := by
    rw [Term.sym.injEq] at hw2
    rw [hw2]
  rw [string_data_append, string_data_append, string_data_append,
    string_data_append] at hdata
  have hd1 : w1.data ++ '_' :: (toString n1 : String).data =
      w2.data ++ '_' :: (toString n2 : String).data := by
    simpa [List.append_assoc] using hdata
  have hr := append_underscore_inj w1.data w2.data _ _
    (by rw [toString_nat_data]; exact underscore_not_mem_digitsSpec n1)
    (by rw [toString_nat_data]; exact underscore_not_mem_digitsSpec n2) hd1
  rw [toString_nat_data, toString_nat_data] at hr
  exact hne (digitsSpec_inj hr)

/-- Witness for C9: the variable `?x_1` of the first labelling of `(?x)` does
not occur among the variables of the second labelling. -/
theorem label_vars_disjoint_witness :
    Term.sym "?x_1" ∉ getVars (label (Term.sym "?x") 2) :=
  fun h => label_vars_disjoint (Term.sym "?x") 1 2 (by decide) (Term.sym "?x_1")
    (by decide) h

/-! ## The Scheme evaluator (`scheme.py`)

Scheme values flowing through `scheme_eval`/`scheme_apply`: reader atoms and
pairs, Python `None` (the result of `define` and of a `cond` with no matching
clause), and the three procedure kinds.  Frames are mutable heap objects, so
the store is explicit: a list of frames addressed by index, with parent links
as indices (frames are only ever created with an already existing parent, so
reachable parent indices are smaller than the referring frame's).  Primitive
procedures are out of scope per the interface spec and modelled as an opaque
pure function `PrimFn`; string-literal atoms are again omitted. -/

inductive SVal where
  | sym (s : String)
  | num (n : Int)
  | boolV (b : Bool)
  | nilV
  | pairV (first second : SVal)
  | noneV
  | prim (name : String) (useEnv : Bool)
  | lambdaP (formals body : SVal) (env : Nat)
  | muP (formals body : SVal)
deriving DecidableEq, Repr

structure SFrame where
  bindings : List (String × SVal)
  parent : Option Nat
deriving DecidableEq, Repr

abbrev Store := List SFrame

/-- Error outcomes: a raised `SchemeError`, any other uncaught Python
exception, or the evaluation-fuel artifact of the shallow embedding. -/
inductive Err where
  | schemeErr (msg : String)
  | pyErr (msg : String)
  | fuelOut
deriving DecidableEq, Repr

abbrev Res := Except Err (SVal × Store)

abbrev EvalFn := SVal → Nat → Store → Res

abbrev PrimFn := String → Bool → List SVal → Option Nat → Except Err SVal

def bLookupS (s : String) : List (String × SVal) → Option SVal
  | [] => none
  | (k, v) :: r => if k = s then some v else bLookupS s r

/-- Python dict assignment. -/
def bDefineS (s : String) (v : SVal) : List (String × SVal) → List (String × SVal)
  | [] => [(s, v)]
  | (k, w) :: r => if k = s then (s, v) :: r else (k, w) :: bDefineS s v r

/-- `Frame.lookup` along the parent chain; fuel bounds the chain walk (parent
indices of reachable frames strictly decrease, so the store size suffices). -/
def chainLookupS (st : Store) : Nat → Nat → String → Option SVal
  | 0, _, _ => none
  | fuel + 1, ref, s =>
    match st.get? ref with
    | none => none
    | some fr =>
      match bLookupS s fr.bindings with
      | some v => some v
      | none =>
        match fr.parent with
        | none => none
        | some p => chainLookupS st fuel p s

def lookupEnv (st : Store) (ref : Nat) (s : String) : Option SVal :=
  chainLookupS st (st.length + 1) ref s

/-- `env.bindings[sym] = val` on the frame at `ref`. -/
def storeDefine (st : Store) (ref : Nat) (s : String) (v : SVal) : Store :=
  match st.get? ref with
  | none => st
  | some fr => st.set ref ⟨bDefineS s v fr.bindings, fr.parent⟩

def ssymp : SVal → Bool
  | .sym _ => true
  | _ => false

/-- `scheme_atomp` on evaluator values. -/
def satomp : SVal → Bool
  | .sym _ => true
  | .num _ => true
  | .boolV _ => true
  | _ => false

/-- `scheme_listp`: proper list. -/
def slist : SVal → Bool
  | .nilV => true
  | .pairV _ d => slist d
  | _ => false

/-- `Pair.__len__` on proper lists (callers guard with `slist`). -/
def slen : SVal → Nat
  | .pairV _ d => slen d + 1
  | _ => 0

/-- `Pair.__getitem__`. -/
def sGetItem : SVal → Nat → Except Err SVal
  | .pairV a _, 0 => .ok a
  | .pairV _ d, n + 1 => sGetItem d n
  | _, _ => .error (.pyErr "index out of range")

/-- `scheme_true`: everything except `False` is true-ish. -/
def schemeTrue (v : SVal) : Bool := v ≠ .boolV false

/-- Python truthiness of `if test:` in `do_cond_form`: `False`, `0`, `None`,
and empty collections are falsy; `bool` of an improper pair raises (its
`__len__` does). -/
def pyTruthy : SVal → Except Err Bool
  | .sym s => .ok (s ≠ "")
  | .num n => .ok (n ≠ 0)
  | .boolV b => .ok b
  | .nilV => .ok false
  | .pairV a d => if slist (SVal.pairV a d) then .ok true
      else .error (.pyErr "length of improper list")
  | .noneV => .ok false
  | .prim _ _ => .ok true
  | .lambdaP _ _ _ => .ok true
  | .muP _ _ => .ok true

/-- `check_form`: proper list with length between `mn` and `mx`.  The
not-a-list case raises a plain `Exception`, not a `SchemeError`. -/
def checkForm (expr : SVal) (mn : Nat) (mx : Option Nat) : Except Err Unit :=
  if ¬ slist expr then .error (.pyErr "badly formed expression")
  else if slen expr < mn then .error (.schemeErr "too few operands in form")
  else
    match mx with
    | some m => if slen expr > m then .error (.schemeErr "too many operands in form")
        else .ok ()
    | none => .ok ()

/-- `check_formals` with its accumulated seen-list. -/
def checkFormals : SVal → List SVal → Except Err Unit
  | .nilV, _ => .ok ()
  | .pairV f d, seen =>
    if f ∈ seen then .error (.schemeErr "bad formed formals")
    else if ¬ ssymp f then .error (.schemeErr "bad formed formals")
    else checkFormals d (f :: seen)
  | _, _ => .error (.schemeErr "bad formed formals")

/-- `do_lambda_form`: build a lexically scoped closure; a multi-expression
body is wrapped in a `begin` at construction time. -/
def do_lambda_form (vals : SVal) (env : Nat) (st : Store) :
    Except Err (SVal × Store) :=
  match checkForm vals 2 none with
  | .error e => .error e
  | .ok _ =>
    match vals with
    | .pairV formals body =>
      match checkFormals formals [] with
      | .error e => .error e
      | .ok _ =>
        if slen body > 1 then .ok (.lambdaP formals (.pairV (.sym "begin") body) env, st)
        else
          match body with
          | .pairV b0 _ => .ok (.lambdaP formals b0 env, st)
          | _ => .error (.pyErr "index out of range")
    | _ => .error (.pyErr "attribute error")

/-- `do_mu_form`: like `lambda` but capturing no environment. -/
def do_mu_form (vals : SVal) (st : Store) : Except Err (SVal × Store) :=
  match checkForm vals 2 none with
  | .error e => .error e
  | .ok _ =>
    match vals with
    | .pairV formals body =>
      match checkFormals formals [] with
      | .error e => .error e
      | .ok _ =>
        if slen body > 1 then .ok (.muP formals (.pairV (.sym "begin") body), st)
        else
          match body with
          | .pairV b0 _ => .ok (.muP formals b0, st)
          | _ => .error (.pyErr "index out of range")
    | _ => .error (.pyErr "attribute error")

/-- `do_quote_form`. -/
def do_quote_form (vals : SVal) (st : Store) : Except Err (SVal × Store) :=
  match checkForm vals 1 (some 1) with
  | .error e => .error e
  | .ok _ =>
    match sGetItem vals 0 with
    | .error e => .error e
    | .ok v => .ok (v, st)

/-- `do_define_form`: evaluates the value (or builds the lambda sugar) and
writes the binding into the frame `env` itself; the form's value is `None`. -/
def do_define_form (ev : EvalFn) (vals : SVal) (env : Nat) (st : Store) :
    Except Err (SVal × Store) :=
  match checkForm vals 2 none with
  | .error e => .error e
  | .ok _ =>
    match vals with
    | .pairV target rest =>
      match target with
      | .sym s =>
        match checkForm vals 2 (some 2) with
        | .error e => .error e
        | .ok _ =>
          match sGetItem vals 1 with
          | .error e => .error e
          | .ok e1 =>
            match ev e1 env st with
            | .error e => .error e
            | .ok (v, st1) => .ok (.noneV, storeDefine st1 env s v)
      | .pairV t0 formals =>
        match t0 with
        | .sym tg =>
          match ev (.pairV (.sym "lambda") (.pairV formals rest)) env st with
          | .error e => .error e
          | .ok (v, st1) => .ok (.noneV, storeDefine st1 env tg v)
        | _ => .error (.schemeErr "Not a symbol")
      | _ => .error (.schemeErr "bad argument to define")
    | _ => .error (.pyErr "attribute error")

/-- The `while bindings != nil` loop of `do_let_form`: evaluate each value
expression in the outer environment `env`, consing names and values (so both
end up reversed). -/
def letBindings (ev : EvalFn) : SVal → Nat → Store → SVal → SVal →
    Except Err (SVal × SVal × Store)
  | .nilV, _, st, names, value => .ok (names, value, st)
  | .pairV k rest, env, st, names, value =>
    match k with
    | .pairV kf kd =>
      match sGetItem kd 0 with
      | .error e => .error e
      | .ok vex =>
        match ev vex env st with
        | .error e => .error e
        | .ok (v, st1) => letBindings ev rest env st1 (.pairV kf names) (.pairV v value)
    | _ => .error (.pyErr "attribute error")
  | _, _, _, _, _ => .error (.pyErr "attribute error")

/-- The loop of `make_call_frame`, building the new frame's dict.  Python
computes `len(formals)` first, so an improper formals list raises; extra
values are silently ignored, missing values crash on `nil.first`. -/
def makeCallFrameB : SVal → SVal → List (String × SVal) →
    Except Err (List (String × SVal))
  | .nilV, _, acc => .ok acc
  | .pairV f fs, vals, acc =>
    match vals with
    | .pairV v vs =>
      match f with
      | .sym s => makeCallFrameB fs vs (bDefineS s v acc)
      | _ => .error (.pyErr "unhashable formal")
    | _ => .error (.pyErr "attribute error: first")
  | _, _, _ => .error (.pyErr "object has no len")

/-- `Frame.make_call_frame`: a new frame whose parent is `self`, formals
bound in order to the corresponding values. -/
def make_call_frame (formals vals : SVal) (parent : Nat) (st : Store) :
    Except Err (Nat × Store) :=
  match makeCallFrameB formals vals [] with
  | .error e => .error e
  | .ok b => .ok (st.length, st ++ [⟨b, some parent⟩])

/-- The index-based body loop of `do_let_form`: evaluate all but the last
expression in the new frame, return the last unevaluated. -/
def letBody (ev : EvalFn) : SVal → Nat → Store → Except Err (SVal × Store)
  | .pairV e .nilV, _, st => .ok (e, st)
  | .pairV e rest, env, st =>
    match ev e env st with
    | .error er => .error er
    | .ok (_, st1) => letBody ev rest env st1
  | _, _, _ => .error (.pyErr "index out of range")

/-- `do_let_form`: returns the tail expression and the new frame. -/
def do_let_form (ev : EvalFn) (vals : SVal) (env : Nat) (st : Store) :
    Except Err (SVal × Nat × Store) :=
  match checkForm vals 2 none with
  | .error e => .error e
  | .ok _ =>
    match vals with
    | .pairV bindings exprs =>
      if ¬ slist bindings then .error (.schemeErr "bad bindings list in let form")
      else
        match letBindings ev bindings env st .nilV .nilV with
        | .error e => .error e
        | .ok (names, value, st1) =>
          match make_call_frame names value env st1 with
          | .error e => .error e
          | .ok (ref, st2) =>
            match letBody ev exprs ref st2 with
            | .error e => .error e
            | .ok (lastE, st3) => .ok (lastE, ref, st3)
    | _ => .error (.pyErr "attribute error")

/-- `do_if_form`: exactly three operands; only the chosen branch is returned,
unevaluated. -/
def do_if_form (ev : EvalFn) (vals : SVal) (env : Nat) (st : Store) :
    Except Err (SVal × Store) :=
  match checkForm vals 3 (some 3) with
  | .error e => .error e
  | .ok _ =>
    match sGetItem vals 0, sGetItem vals 1, sGetItem vals 2 with
    | .ok boo, .ok t, .ok f =>
      match ev boo env st with
      | .error e => .error e
      | .ok (v, st1) => if schemeTrue v then .ok (t, st1) else .ok (f, st1)
    | .error e, _, _ => .error e
    | _, .error e, _ => .error e
    | _, _, .error e => .error e

/-- `do_and_form`: note the quirks of the source — a false-ish operand is
returned unevaluated (to be evaluated again), and a single true-ish operand
yields Python `True` rather than the operand. -/
def do_and_form (ev : EvalFn) : SVal → Nat → Store → Except Err (SVal × Store)
  | .nilV, _, st => .ok (.boolV true, st)
  | .pairV a d, env, st =>
    match ev a env st with
    | .error e => .error e
    | .ok (v, st1) =>
      if v = .boolV false then .ok (a, st1)
      else if slen d = 1 then
        match d with
        | .pairV d0 _ => .ok (d0, st1)
        | _ => .error (.pyErr "unreachable")
      else if d = .nilV then .ok (.boolV true, st1)
      else do_and_form ev d env st1
  | _, _, _ => .error (.pyErr "object has no len")

/-- `do_or_form`: mirror of `do_and_form`. -/
def do_or_form (ev : EvalFn) : SVal → Nat → Store → Except Err (SVal × Store)
  | .nilV, _, st => .ok (.boolV false, st)
  | .pairV a d, env, st =>
    match ev a env st with
    | .error e => .error e
    | .ok (v, st1) =>
      if schemeTrue v then .ok (a, st1)
      else if slen d = 1 then
        match d with
        | .pairV d0 _ => .ok (d0, st1)
        | _ => .error (.pyErr "unreachable")
      else if d = .nilV then .ok (.boolV false, st1)
      else do_or_form ev d env st1
  | _, _, _ => .error (.pyErr "object has no len")

/-- The clause loop of `do_cond_form` (`i` is the enumeration index, `num`
the clause count).  The test value is judged by Python truthiness; a cond
with no matching clause returns Python `None`. -/
def do_cond_clauses (ev : EvalFn) (num : Nat) : SVal → Nat → Nat → Store →
    Except Err (SVal × Store)
  | .nilV, _, _, st => .ok (.noneV, st)
  | .pairV clause rest, i, env, st =>
    match checkForm clause 1 none with
    | .error e => .error e
    | .ok _ =>
      match clause with
      | .pairV cfirst csecond =>
        match
          (if cfirst = .sym "else" then
            if i < num - 1 then .error (.schemeErr "else must be last")
            else if csecond = .nilV then .error (.schemeErr "badly formed else clause")
            else .ok (.boolV true, st)
          else ev cfirst env st : Except Err (SVal × Store)) with
        | .error e => .error e
        | .ok (test, st1) =>
          match pyTruthy test with
          | .error e => .error e
          | .ok true =>
            if csecond = .nilV then .ok (cfirst, st1)
            else .ok (.pairV (.sym "begin") csecond, st1)
          | .ok false => do_cond_clauses ev num rest (i + 1) env st1
      | _ => .error (.pyErr "attribute error")
  | _, _, _, _ => .error (.pyErr "object has no len")

/-- `do_cond_form`. -/
def do_cond_form (ev : EvalFn) (vals : SVal) (env : Nat) (st : Store) :
    Except Err (SVal × Store) :=
  do_cond_clauses ev (slen vals) vals 0 env st

/-- `do_begin_form`. -/
def do_begin_form (ev : EvalFn) : SVal → Nat → Store → Except Err (SVal × Store)
  | vals, env, st =>
    match checkForm vals 1 none with
    | .error e => .error e
    | .ok _ =>
      if slen vals = 1 then
        match vals with
        | .pairV v0 _ => .ok (v0, st)
        | _ => .error (.pyErr "attribute error")
      else
        match vals with
        | .pairV v0 rest =>
          match ev v0 env st with
          | .error e => .error e
          | .ok (_, st1) => do_begin_form ev rest env st1
        | _ => .error (.pyErr "attribute error")

/-- The Python-list conversion loop of `apply_primitive`. -/
def svalToPyList : SVal → Except Err (List SVal)
  | .nilV => .ok []
  | .pairV a d =>
    match svalToPyList d with
    | .error e => .error e
    | .ok l => .ok (a :: l)
  | _ => .error (.pyErr "attribute error: first")

/-- `apply_primitive`: collect the evaluated arguments, append the calling
environment if the primitive wants one, and call the opaque native
function. -/
def apply_primitive (pa : PrimFn) (name : String) (useEnv : Bool) (args : SVal)
    (env : Nat) (st : Store) : Res :=
  match svalToPyList args with
  | .error e => .error e
  | .ok l =>
    match pa name useEnv l (if useEnv then some env else none) with
    | .error e => .error e
    | .ok v => .ok (v, st)

/-- `rest.map(lambda operand: scheme_eval(operand, env))`, left to right. -/
def evalOperands (ev : EvalFn) : SVal → Nat → Store → Except Err (SVal × Store)
  | .nilV, _, st => .ok (.nilV, st)
  | .pairV a d, env, st =>
    match ev a env st with
    | .error e => .error e
    | .ok (v, st1) =>
      match evalOperands ev d env st1 with
      | .error e => .error e
      | .ok (vs, st2) => .ok (.pairV v vs, st2)
  | _, _, _ => .error (.pyErr "map on non-list")

/-- `scheme_apply`: dispatch on the procedure kind; lexical closures chain
the call frame from the captured environment, `mu` procedures from the
caller's current environment. -/
def scheme_apply (pa : PrimFn) (ev : EvalFn) (procedure args : SVal) (env : Nat)
    (st : Store) : Res :=
  match procedure with
  | .prim name useEnv => apply_primitive pa name useEnv args env st
  | .lambdaP formals body cenv =>
    match make_call_frame formals args cenv st with
    | .error e => .error e
    | .ok (ref, st1) => ev body ref st1
  | .muP formals body =>
    match make_call_frame formals args env st with
    | .error e => .error e
    | .ok (ref, st1) => ev body ref st1
  | _ => .error (.schemeErr "Cannot call")

/-- Membership of the head symbol in `LOGIC_FORMS`.  Non-symbol heads are
treated as not special forms (modelled from the spec, which dispatches
non-special-form heads to procedure application; the dict membership test on
a non-string head is reader-class behaviour outside `src`). -/
def isLogicForm : SVal → Bool
  | .sym s => s = "and" || s = "or" || s = "if" || s = "cond" || s = "begin"
  | _ => false

/-- `LOGIC_FORMS[first](rest, env)`. -/
def logicHandler (ev : EvalFn) (first rest : SVal) (env : Nat) (st : Store) :
    Except Err (SVal × Store) :=
  if first = .sym "and" then do_and_form ev rest env st
  else if first = .sym "or" then do_or_form ev rest env st
  else if first = .sym "if" then do_if_form ev rest env st
  else if first = .sym "cond" then do_cond_form ev rest env st
  else do_begin_form ev rest env st

/-- `scheme.scheme_eval`, the naive recursive evaluator (its recursive calls
resolved to itself, as before the final `scheme_eval = scheme_optimized_eval`
rebinding).  The fuel counts evaluation steps; `fuelOut` is the embedding's
budget marker. -/
def scheme_eval (pa : PrimFn) : Nat → SVal → Nat → Store → Res
  | 0, _, _, _ => .error .fuelOut
  | fuel + 1, expr, env, st =>
    match expr with
    | .noneV => .error (.schemeErr "Cannot evaluate an undefined expression.")
    | .sym s =>
      match lookupEnv st env s with
      | some v => .ok (v, st)
      | none => .error (.schemeErr ("unknown identifier: " ++ s))
    | .num n => .ok (.num n, st)
    | .boolV b => .ok (.boolV b, st)
    | .nilV => .error (.pyErr "nil has no attribute first")
    | .prim name useEnv => .error (.schemeErr "malformed list")
    | .lambdaP f b e => .error (.schemeErr "malformed list")
    | .muP f b => .error (.schemeErr "malformed list")
    | .pairV first rest =>
      if ¬ slist (.pairV first rest) then .error (.schemeErr "malformed list")
      else if isLogicForm first then
        match logicHandler (scheme_eval pa fuel) first rest env st with
        | .error e => .error e
        | .ok (expr2, st1) => scheme_eval pa fuel expr2 env st1
      else if first = .sym "lambda" then do_lambda_form rest env st
      else if first = .sym "mu" then do_mu_form rest st
      else if first = .sym "define" then do_define_form (scheme_eval pa fuel) rest env st
      else if first = .sym "quote" then do_quote_form rest st
      else if first = .sym "let" then
        match do_let_form (scheme_eval pa fuel) rest env st with
        | .error e => .error e
        | .ok (expr2, env2, st1) => scheme_eval pa fuel expr2 env2 st1
      else
        match scheme_eval pa fuel first env st with
        | .error e => .error e
        | .ok (procValue, st1) =>
          match evalOperands (scheme_eval pa fuel) rest env st1 with
          | .error e => .error e
          | .ok (args, st2) => scheme_apply pa (scheme_eval pa fuel) procValue args env st2

/-- `scheme.scheme_optimized_eval`, the trampolined tail-call-optimized
evaluator: the `while True:` loop rewrites `expr`/`env` in place; each loop
iteration is one fuel step, and the procedure-application case is inlined
instead of calling `scheme_apply`. -/
def scheme_optimized_eval (pa : PrimFn) : Nat → SVal → Nat → Store → Res
  | 0, _, _, _ => .error .fuelOut
  | fuel + 1, expr, env, st =>
    match expr with
    | .noneV => .error (.schemeErr "Cannot evaluate an undefined expression.")
    | .sym s =>
      match lookupEnv st env s with
      | some v => .ok (v, st)
      | none => .error (.schemeErr ("unknown identifier: " ++ s))
    | .num n => .ok (.num n, st)
    | .boolV b => .ok (.boolV b, st)
    | .nilV => .error (.pyErr "nil has no attribute first")
    | .prim name useEnv => .error (.schemeErr "malformed list")
    | .lambdaP f b e => .error (.schemeErr "malformed list")
    | .muP f b => .error (.schemeErr "malformed list")
    | .pairV first rest =>
      if ¬ slist (.pairV first rest) then .error (.schemeErr "malformed list")
      else if isLogicForm first then
        match logicHandler (scheme_optimized_eval pa fuel) first rest env st with
        | .error e => .error e
        | .ok (expr2, st1) => scheme_optimized_eval pa fuel expr2 env st1
      else if first = .sym "lambda" then do_lambda_form rest env st
      else if first = .sym "mu" then do_mu_form rest st
      else if first = .sym "define" then
        do_define_form (scheme_optimized_eval pa fuel) rest env st
      else if first = .sym "quote" then do_quote_form rest st
      else if first = .sym "let" then
        match do_let_form (scheme_optimized_eval pa fuel) rest env st with
        | .error e => .error e
        | .ok (expr2, env2, st1) => scheme_optimized_eval pa fuel expr2 env2 st1
      else
        match scheme_optimized_eval pa fuel first env st with
        | .error e => .error e
        | .ok (procValue, st1) =>
          match evalOperands (scheme_optimized_eval pa fuel) rest env st1 with
          | .error e => .error e
          | .ok (args, st2) =>
            match procValue with
            | .prim name useEnv => apply_primitive pa name useEnv args env st2
            | .lambdaP formals body cenv =>
              match make_call_frame formals args cenv st2 with
              | .error e => .error e
              | .ok (ref, st3) => scheme_optimized_eval pa fuel body ref st3
            | .muP formals body =>
              match make_call_frame formals args env st2 with
              | .error e => .error e
              | .ok (ref, st3) => scheme_optimized_eval pa fuel body ref st3
            | _ => .error (.schemeErr "Cannot call")

/-- C10: the naive recursive evaluator and the trampolined tail-call
optimized evaluator agree on every expression, environment, store, primitive
semantics, and step budget: same values, same stores, and the same raised
errors.  (Host-stack consumption is the only difference between the two and
is not an observable of the embedding.) -/
theorem scheme_eval_eq_optimized (pa : PrimFn) :
    ∀ (fuel : Nat) (expr : SVal) (env : Nat) (st : Store),
    scheme_eval pa fuel expr env st = scheme_optimized_eval pa fuel expr env st := by
  intro fuel
  induction fuel with
  | zero => intro expr env st; rfl
  | succ n ih =>
    have hev : scheme_eval pa n = scheme_optimized_eval pa n :=
      funext fun a => funext fun b => funext fun c => ih a b c
    intro expr env st
    simp only [scheme_eval, scheme_optimized_eval, scheme_apply, hev]

/-- Build a proper Scheme list value. -/
def encodeL : List SVal → SVal
  | [] => .nilV
  | v :: vs => .pairV v (encodeL vs)

/-- A concrete opaque primitive table for closed runs: every native call
fails with `SchemeError('bad')` (no primitive is exercised by them). -/
def primStub : PrimFn := fun _ _ _ _ => .error (.schemeErr "bad")

lemma slist_encodeL (l : List SVal) : slist (encodeL l) = true := by
  induction l with
  | nil => rfl
  | cons v vs ih => simpa [encodeL, slist] using ih

/-- C4 counterexample: evaluating `(cond (#f 1))`, where no clause's test is
true-ish and there is no else clause, is an error — the cond handler returns
Python `None` and the evaluator raises `SchemeError` on it — refuting the
claim that it yields an empty result without error. -/
theorem cond_no_match_is_error_example :
    scheme_optimized_eval primStub 5
      (.pairV (.sym "cond") (.pairV (.pairV (.boolV false) (.pairV (.num 1) .nilV)) .nilV))
      0 [⟨[], none⟩] =
      .error (.schemeErr "Cannot evaluate an undefined expression.") := by
  rfl

lemma cond_clauses_all_false (ev : EvalFn)
    (hev : ∀ env st, ev (.boolV false) env st = .ok (.boolV false, st)) (num : Nat) :
    ∀ (cs : List SVal) (i env : Nat) (st : Store),
    (∀ c ∈ cs, ∃ b, c = SVal.pairV (.boolV false) b ∧ slist b = true) →
    do_cond_clauses ev num (encodeL cs) i env st = .ok (.noneV, st) := by
  intro cs
  induction cs with
  | nil => intro i env st hcs; rfl
  | cons c cs' ih =>
    intro i env st hcs
    obtain ⟨b, rfl, hb⟩ := hcs c (by simp)
    have hck : checkForm (SVal.pairV (.boolV false) b) 1 none = .ok () := by
      simp [checkForm, slist, hb, slen]
    simp only [encodeL, do_cond_clauses, hck]
    have hne : ¬ (SVal.boolV false = SVal.sym "else") := by simp
    simp only [hne, if_false, hev, pyTruthy]
    exact ih (i + 1) env st (fun c hc => hcs c (by simp [hc]))

/-- C4 (amended): a `cond` form none of whose clauses' tests is true-ish (and
with no `else` clause) IS an error: `do_cond_form` itself returns the
undefined marker (Python `None`) without raising, but the evaluator then
raises `SchemeError: Cannot evaluate an undefined expression.` on that
marker.  Stated for clause tests that are the literal `#f`. -/
theorem cond_no_true_clause_is_error (pa : PrimFn) (fuel : Nat) (cs : List SVal)
    (env : Nat) (st : Store)
    (hcs : ∀ c ∈ cs, ∃ b, c = SVal.pairV (.boolV false) b ∧ slist b = true) :
    scheme_optimized_eval pa (fuel + 2) (.pairV (.sym "cond") (encodeL cs)) env st =
      .error (.schemeErr "Cannot evaluate an undefined expression.") := by
  have hev : ∀ env st, scheme_optimized_eval pa (fuel + 1) (.boolV false) env st =
      .ok (.boolV false, st) := by
    intro env st
    simp [scheme_optimized_eval]
  have hclauses := cond_clauses_all_false (scheme_optimized_eval pa (fuel + 1)) hev
    (slen (encodeL cs)) cs 0 env st hcs
  have hslist : slist (SVal.pairV (.sym "cond") (encodeL cs)) = true := by
    simpa [slist] using slist_encodeL cs
  have hlh : logicHandler (scheme_optimized_eval pa (fuel + 1)) (.sym "cond")
      (encodeL cs) env st = .ok (.noneV, st) := by
    simp only [logicHandler]
    rw [if_neg (by decide), if_neg (by decide), if_neg (by decide), if_pos trivial]
    simpa [do_cond_form] using hclauses
  rw [show fuel + 2 = (fuel + 1) + 1 from rfl, scheme_optimized_eval]
  try simp only
  rw [if_neg (by simp [hslist]), if_pos (by decide)]
  rw [hlh]
  try simp only
  rw [scheme_optimized_eval]

/-- Witness for the amended C4 at the single clause `(#f 1)`. -/
theorem cond_no_true_clause_is_error_witness :
    (∀ c ∈ [SVal.pairV (.boolV false) (.pairV (.num 1) .nilV)],
      ∃ b, c = SVal.pairV (.boolV false) b ∧ slist b = true) ∧
    scheme_optimized_eval primStub 2
      (.pairV (.sym "cond") (encodeL [SVal.pairV (.boolV false) (.pairV (.num 1) .nilV)]))
      0 [⟨[], none⟩] =
      .error (.schemeErr "Cannot evaluate an undefined expression.") :=
  ⟨by intro c hc; exact ⟨.pairV (.num 1) .nilV, by simpa using hc, by decide⟩,
   cond_no_true_clause_is_error primStub 0
     [SVal.pairV (.boolV false) (.pairV (.num 1) .nilV)] 0 [⟨[], none⟩]
     (by intro c hc; exact ⟨.pairV (.num 1) .nilV, by simpa using hc, by decide⟩)⟩

/-! ### C5: arity of lambda application -/

/-- C5 counterexample: applying a lexical closure of zero formals to one
argument is not an error at all — `make_call_frame` iterates only over the
formals, silently dropping the surplus argument, and no caller checks
arity; the body is evaluated normally. -/
theorem lambda_extra_arg_applies_without_error :
    scheme_apply primStub (scheme_eval primStub 5)
      (.lambdaP .nilV (.num 42) 0) (.pairV (.num 7) .nilV) 0 [⟨[], none⟩] =
      .ok (.num 42, [⟨[], none⟩, ⟨[], some 0⟩]) := rfl

lemma makeCallFrameB_arity (names : List String) :
    ∀ (vs : List SVal) (acc : List (String × SVal)),
    (vs.length < names.length →
      makeCallFrameB (encodeL (names.map SVal.sym)) (encodeL vs) acc =
        .error (.pyErr "attribute error: first")) ∧
    (names.length ≤ vs.length →
      ∃ b, makeCallFrameB (encodeL (names.map SVal.sym)) (encodeL vs) acc = .ok b) := by
  induction names with
  | nil =>
    intro vs acc
    exact ⟨fun h => absurd h (by simp), fun _ => ⟨acc, rfl⟩⟩
  | cons n ns ih =>
    intro vs acc
    cases vs with
    | nil =>
      exact ⟨fun _ => rfl, fun h => absurd h (by simp)⟩
    | cons v vs' =>
      constructor
      · intro h
        have h' : vs'.length < ns.length := by
          simp only [List.length_cons] at h
          omega
        simpa [encodeL, makeCallFrameB] using (ih vs' (bDefineS n v acc)).1 h'
      · intro h
        have h' : ns.length ≤ vs'.length := by
          simp only [List.length_cons] at h
          omega
        obtain ⟨b, hb⟩ := (ih vs' (bDefineS n v acc)).2 h'
        exact ⟨b, by simpa [encodeL, makeCallFrameB] using hb⟩

/-- C5 (amended): there is no arity check in the caller at all.  Applying a
lexically scoped closure to too FEW arguments raises an `AttributeError`
(`nil.first`) from inside `make_call_frame` itself — an uncaught Python
exception, not an error raised by the caller — while applying it to too MANY
arguments raises nowhere: the surplus arguments are silently dropped and the
body is evaluated in the new frame. -/
theorem lambda_apply_arity (pa : PrimFn) (ev : EvalFn) (names : List String)
    (vs : List SVal) (body : SVal) (cenv env : Nat) (st : Store) :
    (vs.length < names.length →
      scheme_apply pa ev (.lambdaP (encodeL (names.map SVal.sym)) body cenv)
        (encodeL vs) env st = .error (.pyErr "attribute error: first")) ∧
    (names.length ≤ vs.length →
      ∃ b, scheme_apply pa ev (.lambdaP (encodeL (names.map SVal.sym)) body cenv)
        (encodeL vs) env st = ev body st.length (st ++ [⟨b, some cenv⟩])) := by
  constructor
  · intro h
    have hm := (makeCallFrameB_arity names vs []).1 h
    simp [scheme_apply, make_call_frame, hm]
  · intro h
    obtain ⟨b, hb⟩ := (makeCallFrameB_arity names vs []).2 h
    exact ⟨b, by simp [scheme_apply, make_call_frame, hb]⟩

/-- Witness for C5, one missing argument: `(lambda (x) 0)` applied to no
arguments dies on the `AttributeError` raised inside `make_call_frame`. -/
theorem lambda_apply_arity_witness :
    scheme_apply primStub (scheme_eval primStub 3)
      (.lambdaP (encodeL (["x"].map SVal.sym)) (.num 0) 0)
      (encodeL ([] : List SVal)) 0 [⟨[], none⟩] =
      .error (.pyErr "attribute error: first") :=
  (lambda_apply_arity primStub (scheme_eval primStub 3) ["x"] [] (.num 0) 0 0
    [⟨[], none⟩]).1 (by decide)

/-! ### C7: semantics of the let form -/

/-- Encode a binding list `((name valueExpr) ...)`. -/
def encodeLet (prs : List (String × SVal)) : SVal :=
  encodeL (prs.map fun p => .pairV (.sym p.1) (.pairV p.2 .nilV))

/-- Spec-side (transcribed from the spec's words): evaluate a list of value
expressions left to right, all in the SAME environment `env` — "each
valueExpr is evaluated in the original (outer) environment" — collecting the
values and threading the store. -/
def evalValuesOuter (ev : EvalFn) (env : Nat) : List SVal → Store →
    Except Err (List SVal × Store)
  | [], st => .ok ([], st)
  | e :: es, st =>
    match ev e env st with
    | .error er => .error er
    | .ok (v, st1) =>
      match evalValuesOuter ev env es st1 with
      | .error er => .error er
      | .ok (vs, st2) => .ok (v :: vs, st2)

/-- Spec-side: evaluate a list of expressions eagerly, for effect only, in
`env` — "all but the last body expression are evaluated eagerly in the new
frame". -/
def evalSeq (ev : EvalFn) (env : Nat) : List SVal → Store → Except Err Store
  | [], st => .ok st
  | e :: es, st =>
    match ev e env st with
    | .error er => .error er
    | .ok (_, st1) => evalSeq ev env es st1

/-- Spec-side `let` pipeline, transcribed from the spec's words: the value
expressions are evaluated in the outer environment `env`; then a SINGLE new
call frame, child of the outer environment, binds the names (its dict built
from the value list by `mkDict`); all but the last body expression are
evaluated eagerly in the new frame; the last body expression is returned
unevaluated as the tail, together with the new frame. -/
def letSpec (ev : EvalFn) (prs : List (String × SVal))
    (mkDict : List SVal → List (String × SVal)) (body : List SVal) (b0 : SVal)
    (env : Nat) (st : Store) : Except Err (SVal × Nat × Store) :=
  match evalValuesOuter ev env (prs.map Prod.snd) st with
  | .error e => .error e
  | .ok (vs, st1) =>
    match evalSeq ev st1.length body (st1 ++ [⟨mkDict vs, some env⟩]) with
    | .error e => .error e
    | .ok st3 => .ok (b0, st1.length, st3)

lemma evalValuesOuter_length (ev : EvalFn) (env : Nat) :
    ∀ (es : List SVal) (st : Store) (vs : List SVal) (st1 : Store),
    evalValuesOuter ev env es st = .ok (vs, st1) → vs.length = es.length := by
  intro es
  induction es with
  | nil =>
    intro st vs st1 h
    simp only [evalValuesOuter] at h
    cases h
    rfl
  | cons e es' ih =>
    intro st vs st1 h
    simp only [evalValuesOuter] at h
    cases hv : ev e env st with
    | error er =>
      try rw [hv] at h
      simp only at h
      cases h
    | ok p =>
      obtain ⟨v, stv⟩ := p
      try rw [hv] at h
      simp only at h
      cases hrest : evalValuesOuter ev env es' stv with
      | error er =>
        try rw [hrest] at h
        simp only at h
        cases h
      | ok q =>
        obtain ⟨ws, stw⟩ := q
        try rw [hrest] at h
        simp only at h
        cases h
        simpa using ih stv ws _ hrest

/-- The reversed name accumulator of the let-binding loop. -/
def consNames : List String → SVal → SVal
  | [], acc => acc
  | n :: ns, acc => consNames ns (.pairV (.sym n) acc)

/-- The reversed value accumulator of the let-binding loop. -/
def consVals : List SVal → SVal → SVal
  | [], acc => acc
  | v :: vs, acc => consVals vs (.pairV v acc)

lemma consNames_eq : ∀ (ns : List String) (l : List SVal),
    consNames ns (encodeL l) = encodeL (ns.reverse.map SVal.sym ++ l) := by
  intro ns
  induction ns with
  | nil => intro l; simp [consNames]
  | cons n ns' ih =>
    intro l
    have : SVal.pairV (.sym n) (encodeL l) = encodeL (.sym n :: l) := rfl
    simp only [consNames, this, ih]
    simp [encodeL]

lemma consVals_eq : ∀ (vs l : List SVal),
    consVals vs (encodeL l) = encodeL (vs.reverse ++ l) := by
  intro vs
  induction vs with
  | nil => intro l; simp [consVals]
  | cons v vs' ih =>
    intro l
    have : SVal.pairV v (encodeL l) = encodeL (v :: l) := rfl
    simp only [consVals, this, ih]
    simp [encodeL]

lemma letBindings_spec (ev : EvalFn) (env : Nat) :
    ∀ (prs : List (String × SVal)) (st : Store) (names value : SVal),
    letBindings ev (encodeLet prs) env st names value =
      match evalValuesOuter ev env (prs.map Prod.snd) st with
      | .error e => .error e
      | .ok (vs, st1) =>
        .ok (consNames (prs.map Prod.fst) names, consVals vs value, st1) := by
  intro prs
  induction prs with
  | nil => intro st names value; rfl
  | cons p prs' ih =>
    intro st names value
    obtain ⟨n, e⟩ := p
    simp only [encodeLet, List.map_cons, encodeL, letBindings, sGetItem,
      List.map_cons, evalValuesOuter]
    cases hv : ev e env st with
    | error er => rfl
    | ok q =>
      obtain ⟨v, st1⟩ := q
      have := ih st1 (.pairV (.sym n) names) (.pairV v value)
      simp only [encodeLet] at this
      try simp only
      rw [this]
      cases hrest : evalValuesOuter ev env (prs'.map Prod.snd) st1 with
      | error er => rfl
      | ok q2 =>
        obtain ⟨ws, st2⟩ := q2
        simp [consNames, consVals]

lemma makeCallFrameB_fold : ∀ (ms : List String) (ws : List SVal)
    (acc : List (String × SVal)), ms.length = ws.length →
    makeCallFrameB (encodeL (ms.map SVal.sym)) (encodeL ws) acc =
      .ok (List.foldl (fun a p => bDefineS p.1 p.2 a) acc (ms.zip ws)) := by
  intro ms
  induction ms with
  | nil =>
    intro ws acc h
    have : ws = [] := List.length_eq_zero.mp h.symm
    subst this
    rfl
  | cons m ms' ih =>
    intro ws acc h
    cases ws with
    | nil => simp at h
    | cons w ws' =>
      have h' : ms'.length = ws'.length := by
        simpa using h
      simpa [encodeL, makeCallFrameB, List.zip_cons_cons] using ih ws' (bDefineS m w acc) h'

lemma bDefineS_notMem (s : String) (v : SVal) :
    ∀ (l : List (String × SVal)), s ∉ l.map Prod.fst → bDefineS s v l = l ++ [(s, v)] := by
  intro l
  induction l with
  | nil => intro _; rfl
  | cons p r ih =>
    intro h
    obtain ⟨k, w⟩ := p
    simp only [List.map_cons, List.mem_cons] at h
    push_neg at h
    have hks : ¬ k = s := fun hc => h.1 hc.symm
    simp only [bDefineS, if_neg hks, List.cons_append]
    rw [ih h.2]

lemma foldl_bDefineS_fresh : ∀ (l acc : List (String × SVal)),
    (l.map Prod.fst).Nodup → (∀ p ∈ l, p.1 ∉ acc.map Prod.fst) →
    List.foldl (fun a p => bDefineS p.1 p.2 a) acc l = acc ++ l := by
  intro l
  induction l with
  | nil => intro acc _ _; simp
  | cons p r ih =>
    intro acc hnd hfresh
    simp only [List.foldl_cons]
    rw [bDefineS_notMem p.1 p.2 acc (hfresh p (by simp))]
    have hnd' : (r.map Prod.fst).Nodup := (List.nodup_cons.mp (by simpa using hnd)).2
    have hhead : p.1 ∉ r.map Prod.fst := (List.nodup_cons.mp (by simpa using hnd)).1
    have hfresh' : ∀ q ∈ r, q.1 ∉ (acc ++ [(p.1, p.2)]).map Prod.fst := by
      intro q hq
      simp only [List.map_append, List.mem_append, List.map_cons, List.map_nil,
        List.mem_singleton]
      rintro (hin | hin)
      · exact hfresh q (by simp [hq]) hin
      · exact hhead (by simpa [hin] using List.mem_map_of_mem Prod.fst hq)
    rw [ih (acc ++ [(p.1, p.2)]) hnd' hfresh']
    simp

lemma zip_reverse_eq : ∀ (ns : List String) (vs : List SVal),
    ns.length = vs.length → ns.reverse.zip vs.reverse = (ns.zip vs).reverse := by
  intro ns
  induction ns with
  | nil => intro vs h; simp
  | cons n ns' ih =>
    intro vs h
    cases vs with
    | nil => simp at h
    | cons v vs' =>
      have h' : ns'.length = vs'.length := by simpa using h
      simp only [List.reverse_cons, List.zip_cons_cons]
      rw [List.zip_append (by simp [h'])]
      simp [ih vs' h']

lemma bLookupS_append (s : String) : ∀ (a b : List (String × SVal)),
    bLookupS s (a ++ b) =
      match bLookupS s a with
      | some v => some v
      | none => bLookupS s b := by
  intro a b
  induction a with
  | nil => simp [bLookupS]
  | cons p r ih =>
    obtain ⟨k, w⟩ := p
    by_cases hk : k = s
    · simp [bLookupS, hk]
    · simp [bLookupS, hk, ih]

lemma bLookupS_eq_none (s : String) : ∀ (l : List (String × SVal)),
    s ∉ l.map Prod.fst → bLookupS s l = none := by
  intro l
  induction l with
  | nil => intro _; rfl
  | cons p r ih =>
    intro h
    obtain ⟨k, w⟩ := p
    simp only [List.map_cons, List.mem_cons] at h
    push_neg at h
    have hks : ¬ k = s := fun hc => h.1 hc.symm
    simp [bLookupS, hks, ih h.2]

lemma bLookupS_reverse : ∀ (l : List (String × SVal)),
    (l.map Prod.fst).Nodup → ∀ s, bLookupS s l.reverse = bLookupS s l := by
  intro l
  induction l with
  | nil => intro _ s; rfl
  | cons p r ih =>
    intro hnd s
    obtain ⟨k, w⟩ := p
    have hnd' : (r.map Prod.fst).Nodup := (List.nodup_cons.mp (by simpa using hnd)).2
    have hhead : k ∉ r.map Prod.fst := (List.nodup_cons.mp (by simpa using hnd)).1
    simp only [List.reverse_cons, bLookupS_append]
    by_cases hk : k = s
    · subst hk
      rw [ih hnd' k, bLookupS_eq_none k r hhead]
      simp [bLookupS]
    · rw [ih hnd' s]
      cases hr : bLookupS s r with
      | some v => simp [bLookupS, hk, hr]
      | none => simp [bLookupS, hk, hr]

lemma map_fst_zip_sublist : ∀ (ns : List String) (vs : List SVal),
    ((ns.zip vs).map Prod.fst).Sublist ns := by
  intro ns
  induction ns with
  | nil => intro vs; simp
  | cons n ns' ih =>
    intro vs
    cases vs with
    | nil => simp
    | cons v vs' =>
      simpa using List.Sublist.cons₂ n (ih vs')

lemma letBody_spec (ev : EvalFn) (env : Nat) (b0 : SVal) :
    ∀ (body : List SVal) (st : Store),
    letBody ev (encodeL (body ++ [b0])) env st =
      match evalSeq ev env body st with
      | .error e => .error e
      | .ok st3 => .ok (b0, st3) := by
  intro body
  induction body with
  | nil => intro st; rfl
  | cons e rest ih =>
    intro st
    cases rest with
    | nil =>
      simp only [List.cons_append, List.nil_append, encodeL, letBody, evalSeq]
      cases hv : ev e env st with
      | error er => rfl
      | ok q => obtain ⟨v, st1⟩ := q; rfl
    | cons e2 rest2 =>
      simp only [List.cons_append, encodeL, letBody, evalSeq]
      cases hv : ev e env st with
      | error er => rfl
      | ok q =>
        obtain ⟨v, st1⟩ := q
        have := ih st1
        simp only [List.cons_append, encodeL, evalSeq] at this ⊢
        rw [this]

lemma slen_encodeL : ∀ (l : List SVal), slen (encodeL l) = l.length := by
  intro l
  induction l with
  | nil => rfl
  | cons v vs ih => simp [encodeL, slen, ih]

/-- C7: the `let` form evaluates every binding's value expression in the
ORIGINAL outer environment `env` (never in the frame being built, so the
bindings cannot see each other), then creates ONE new call frame — a child of
the outer environment — binding all the names to their respective values in a
single step (the dict is inserted in reverse binding order, which for the
distinct names required here is the reversed simultaneous name-value zip),
evaluates all but the last body expression eagerly in that new frame, and
returns the last body expression unevaluated as the tail together with the
new frame; moreover the frame's dict is lookup-equivalent to the simultaneous
name-to-value zip. -/
theorem let_semantics (ev : EvalFn) (prs : List (String × SVal))
    (body : List SVal) (b0 : SVal) (env : Nat) (st : Store)
    (hnd : (prs.map Prod.fst).Nodup) :
    do_let_form ev (.pairV (encodeLet prs) (encodeL (body ++ [b0]))) env st =
      letSpec ev prs (fun vs => ((prs.map Prod.fst).zip vs).reverse) body b0 env st
    ∧ ∀ (vs : List SVal) (s : String),
        bLookupS s (((prs.map Prod.fst).zip vs).reverse) =
          bLookupS s ((prs.map Prod.fst).zip vs) := by
  constructor
  · have hck : checkForm (SVal.pairV (encodeLet prs) (encodeL (body ++ [b0]))) 2 none
        = .ok () := by
      have h1 : slist (SVal.pairV (encodeLet prs) (encodeL (body ++ [b0]))) = true := by
        simpa [slist] using slist_encodeL (body ++ [b0])
      have h2 : slen (SVal.pairV (encodeLet prs) (encodeL (body ++ [b0])))
          = (body.length + 1) + 1 := by
        simp [slen, slen_encodeL]
      simp [checkForm, h1, h2]
    simp only [do_let_form, hck]
    try simp only
    rw [if_neg (by simp [encodeLet, slist_encodeL])]
    rw [letBindings_spec]
    cases hvv : evalValuesOuter ev env (prs.map Prod.snd) st with
    | error e => simp [letSpec, hvv]
    | ok q =>
      obtain ⟨vs, st1⟩ := q
      try simp only
      have hlen : vs.length = prs.length := by
        simpa using evalValuesOuter_length ev env (prs.map Prod.snd) st vs st1 hvv
      have hnames : consNames (prs.map Prod.fst) .nilV
          = encodeL (((prs.map Prod.fst).reverse).map SVal.sym) := by
        simpa using consNames_eq (prs.map Prod.fst) []
      have hvals : consVals vs .nilV = encodeL vs.reverse := by
        simpa using consVals_eq vs []
      have hmcf : make_call_frame (consNames (prs.map Prod.fst) .nilV)
          (consVals vs .nilV) env st1 =
          .ok (st1.length, st1 ++ [⟨((prs.map Prod.fst).zip vs).reverse, some env⟩]) := by
        rw [hnames, hvals, make_call_frame]
        rw [makeCallFrameB_fold ((prs.map Prod.fst).reverse) vs.reverse [] (by simp [hlen])]
        rw [zip_reverse_eq _ _ (by simp [hlen])]
        rw [foldl_bDefineS_fresh ((prs.map Prod.fst).zip vs).reverse []
          (by
            rw [List.map_reverse]
            exact List.nodup_reverse.mpr
              (List.Nodup.sublist (map_fst_zip_sublist (prs.map Prod.fst) vs) hnd))
          (by intro p hp; simp)]
        simp
      rw [hmcf]
      try simp only
      rw [letBody_spec]
      simp only [letSpec, hvv]
      cases hse : evalSeq ev st1.length body
          (st1 ++ [⟨((prs.map Prod.fst).zip vs).reverse, some env⟩]) with
      | error e => simp
      | ok st3 => simp
  · intro vs s
    exact bLookupS_reverse ((prs.map Prod.fst).zip vs)
      (List.Nodup.sublist (map_fst_zip_sublist (prs.map Prod.fst) vs) hnd) s

/-- Witness for C7 at `(let ((a 1) (b 2)) 3 4)` under the stub primitive
table. -/
theorem let_semantics_witness :
    ([("a", SVal.num 1), ("b", SVal.num 2)].map Prod.fst).Nodup ∧
    (do_let_form (scheme_eval primStub 3)
        (.pairV (encodeLet [("a", SVal.num 1), ("b", SVal.num 2)])
          (encodeL ([SVal.num 3] ++ [SVal.num 4]))) 0 [⟨[], none⟩] =
      letSpec (scheme_eval primStub 3) [("a", SVal.num 1), ("b", SVal.num 2)]
        (fun vs => (([("a", SVal.num 1), ("b", SVal.num 2)].map Prod.fst).zip vs).reverse)
        [SVal.num 3] (SVal.num 4) 0 [⟨[], none⟩]
     ∧ ∀ (vs : List SVal) (s : String),
        bLookupS s ((([("a", SVal.num 1), ("b", SVal.num 2)].map Prod.fst).zip vs).reverse) =
          bLookupS s (([("a", SVal.num 1), ("b", SVal.num 2)].map Prod.fst).zip vs)) :=
  ⟨by decide,
   let_semantics (scheme_eval primStub 3) [("a", SVal.num 1), ("b", SVal.num 2)]
     [SVal.num 3] (SVal.num 4) 0 [⟨[], none⟩] (by decide)⟩

end SchemeModel
